import Mathlib

set_option autoImplicit false

/-!
Verification development for the `mafia` TCP chat/game server.

Strings from the Rust source are modelled as `List Char` (`Str`); the
`HashMap`s owned by each service are modelled as association lists with
`look` / `upd` / `rem` mirroring `get` / `insert` / `remove`; `Option`
results model Rust panics (`none` = panic) where the source can panic.
Socket ids (Rust `SocketAddr`) are modelled as `Nat`.
-/

abbrev Str := List Char

namespace Mafia

/-! ### Definitions

The association-list model of `HashMap` shared by all services. -/

section AssocMap

variable {κ ν : Type} [DecidableEq κ]

/-- `HashMap::remove` (key removal; value result modelled via `look`). -/
def rem (k : κ) (m : List (κ × ν)) : List (κ × ν) :=
  m.filter (fun p => decide (p.1 ≠ k))

/-- `HashMap::insert`. -/
def upd (k : κ) (v : ν) (m : List (κ × ν)) : List (κ × ν) :=
  (k, v) :: rem k m

/-- `HashMap::get`. -/
def look (k : κ) (m : List (κ × ν)) : Option ν :=
  (m.find? (fun p => decide (p.1 = k))).map Prod.snd

end AssocMap

/-- The whitespace test used by Rust `char::is_whitespace` on the ASCII
range (the server protocol is line-oriented ASCII-compatible text; the
delimiting and trimming behaviour the claims depend on lives here). -/
def isWs (c : Char) : Bool :=
  c == ' ' || c == '\t' || c == '\n' || c == '\r'

/-- `str::split_whitespace` together with the byte offset of each token
inside the original line (the Rust source recovers that offset by pointer
arithmetic in `Message::parse_private`); `k` is the offset of the head of
the list being scanned.  Offsets count `Char`s of the model string. -/
def wordsOff : List Char → Nat → List (Nat × List Char)
  | [], _ => []
  | c :: rest, k =>
    if isWs c then wordsOff rest (k + 1)
    else
      (k, c :: rest.takeWhile (fun d => !isWs d)) ::
        wordsOff (rest.dropWhile (fun d => !isWs d))
          (k + 1 + (rest.takeWhile (fun d => !isWs d)).length)
termination_by l _ => l.length
decreasing_by
  all_goals simp
  calc (rest.dropWhile (fun d => !isWs d)).length ≤ rest.length := by
        induction rest with
        | nil => simp
        | cons a l ih =>
            by_cases h : isWs a
            · simp [List.dropWhile_cons, h]
            · simp only [List.dropWhile_cons, h, Bool.not_false, if_true, List.length_cons]
              omega
    _ < rest.length + 1 := Nat.lt_succ_self _

/-- Messages as classified by `Message::parse` in `chat_service.rs`. -/
inductive Message : Type
  | Public (body : Str)
  | Private (body : Str) (recipients : List Str)
  | Command (cmd : Str)
  | Action (arg : Str)
deriving DecidableEq

namespace Message

/-- `Message::first_char`; `none` models the `expect("No first character")`
panic branch. -/
def first_char (s : Str) : Option Char := s.head?

/-- `Message::remove_first_char`; `none` models the panic branch.  On the
`List Char` model, dropping the first char's UTF-8 bytes is `tail`. -/
def remove_first_char (s : Str) : Option Str :=
  match s with
  | [] => none
  | _ :: t => some t

/-- The `for word in line.split_whitespace()` loop of
`Message::parse_private`: leading `'+'` tokens are pushed as recipients
(`'+'` stripped, in order); the first other token returns the suffix of
`line` from that token's offset as the body; if the loop ends, the body is
empty. -/
def privLoop (line : Str) (acc : List Str) : List (Nat × Str) → Option Message
  | [] => some (Message.Private [] acc.reverse)
  | (off, w) :: rest =>
    match first_char w with
    | none => none
    | some c =>
      if c = '+' then
        match remove_first_char w with
        | none => none
        | some w0 => privLoop line (w0 :: acc) rest
      else some (Message.Private (line.drop off) acc.reverse)

/-- `Message::parse_private`. -/
def parse_private (line : Str) : Option Message :=
  privLoop line [] (wordsOff line 0)

/-- `Message::parse_command` (the Rust `if let Some('!')` is an equality
test on the first char). -/
def parse_command (line : Str) : Option Message :=
  match remove_first_char line with
  | none => none
  | some rest =>
    if rest.head? = some '!' then (remove_first_char rest).map Message.Action
    else some (Message.Command rest)

/-- `Message::parse` (the Rust `match line.chars().next()` over
`Some('+')` / `Some('!')` / `_`). -/
def parse (line : Str) : Option Message :=
  if line.head? = some '+' then parse_private line
  else if line.head? = some '!' then parse_command line
  else some (Message.Public line)

end Message

/-- Modelled from the spec: "consecutive leading tokens that begin with
`'+'`" — the test that a token begins with `'+'`. -/
def plusTok (p : Nat × Str) : Bool := p.2.head? == some '+'

/-- Modelled from the spec: the recipient logins of a private line — the
maximal run of leading whitespace-separated tokens beginning with `'+'`,
each with its leading `'+'` stripped, in input order. -/
def specRecips (line : Str) : List Str :=
  ((wordsOff line 0).takeWhile plusTok).map (fun p => p.2.tail)

/-- Modelled from the spec: the body of a private line — the suffix of the
original line starting at the offset of the first token not beginning with
`'+'`, or empty if every token begins with `'+'`. -/
def specBody (line : Str) : Str :=
  match ((wordsOff line 0).dropWhile plusTok).head? with
  | none => []
  | some (off, _) => line.drop off

/-! ### Chat service (`chat_service.rs`): definitions -/

namespace Chat

/-- `login_service::User` as the chat service sees it (id + login; the
socket handle is represented by the id, which keys every send). -/
structure UserC where
  id : Nat
  login : Str
deriving DecidableEq

/-- `chat_service::MuteLevel`. -/
inductive MuteLevel : Type
  | AllowAll
  | DenyPublic (reason : Str)
  | DenyAll (reason : Str)
deriving DecidableEq

/-- `MuteLevel::public_allowed`. -/
def MuteLevel.public_allowed : MuteLevel → Bool
  | .AllowAll => true
  | _ => false

/-- `MuteLevel::private_allowed`. -/
def MuteLevel.private_allowed : MuteLevel → Bool
  | .DenyAll _ => false
  | _ => true

/-- `MuteLevel::get_reason`. -/
def MuteLevel.get_reason : MuteLevel → Str
  | .AllowAll => []
  | .DenyPublic r => r
  | .DenyAll r => r

/-- `chat_service::UserInfo`. -/
structure UserInfo where
  user : UserC
  mute : MuteLevel
deriving DecidableEq

/-- `chat_service::GameEvent`; the `Connected` variant's `Player` is
represented by the carried user's id and login (the request channel it
carries is the service's own side channel). -/
inductive GameEvent : Type
  | Connected (id : Nat) (login : Str)
  | Disconnected (id : Nat)
  | Action (id : Nat) (arg : Str)
  | CommandList (id : Nat)
  | CommandObserve (id : Nat)
  | CommandPlay (id : Nat)
  | CommandPause (id : Nat)
  | CommandStart (id : Nat)
deriving DecidableEq

/-- Observable effect of a chat handler: a line sent to a connection's
user, a game event emitted to the game service, or a socket-close request
(`User::drop`, reached from the `quit` command). -/
inductive ChatOut : Type
  | send (id : Nat) (msg : Str)
  | game (e : GameEvent)
  | close (id : Nat)
deriving DecidableEq

/-- `ChatService` state: the `users` and `login_id` maps. -/
structure ChatSt where
  users : List (Nat × UserInfo)
  login_id : List (Str × Nat)
deriving DecidableEq

/-- `ChatService::broadcast`: one send per entry of `users`. -/
def broadcast (st : ChatSt) (msg : Str) : List ChatOut :=
  st.users.map (fun p => ChatOut.send p.2.user.id msg)

/-- `ChatService::get_user_by_login`. -/
def get_user_by_login (st : ChatSt) (login : Str) : Option UserC :=
  (look login st.login_id).bind (fun i => (look i st.users).map (fun info => info.user))

def connectedMsg (now login : Str) : Str :=
  now ++ " Connected: ".data ++ login ++ "\n".data

def disconnectedMsg (now login : Str) : Str :=
  now ++ " Disconnected: ".data ++ login ++ "\n".data

def observerReason : Str := "You are observer, you can not use chat.\n".data

/-- `ChatService::handle_new_user` (`now` models the ambient wall clock
`Local::now().format("%H:%M")`): broadcast the connect banner (before the
new user is inserted), emit `GameEvent::Connected`, then insert into
`login_id` and `users` with the observer `DenyAll` mute. -/
def handle_new_user (now : Str) (st : ChatSt) (user : UserC) : ChatSt × List ChatOut :=
  ({ users := upd user.id { user := user, mute := MuteLevel.DenyAll observerReason } st.users,
     login_id := upd user.login user.id st.login_id },
   broadcast st (connectedMsg now user.login) ++
     [ChatOut.game (GameEvent.Connected user.id user.login)])

/-- `ChatService::handle_drop_user`: remove the participant (the
`login_id` map is left untouched by the source), broadcast the disconnect
banner to the remaining users, emit `GameEvent::Disconnected`. -/
def handle_drop_user (now : Str) (st : ChatSt) (id : Nat) : ChatSt × List ChatOut :=
  match look id st.users with
  | none => (st, [])
  | some info =>
      let st1 : ChatSt := { users := rem id st.users, login_id := st.login_id }
      (st1, broadcast st1 (disconnectedMsg now info.user.login) ++
        [ChatOut.game (GameEvent.Disconnected info.user.id)])

/-- `ChatService::handle_mute_request`. -/
def handle_mute_request (st : ChatSt) (id : Nat) (level : MuteLevel) : ChatSt :=
  match look id st.users with
  | none => st
  | some info => { st with users := upd id { info with mute := level } st.users }

def publicMsg (now login body : Str) : Str :=
  now ++ " [".data ++ login ++ "] ".data ++ body ++ "\n".data

/-- `ChatService::handle_public_message`. -/
def handle_public_message (now : Str) (st : ChatSt) (info : UserInfo) (message : Str) :
    List ChatOut :=
  if !info.mute.public_allowed then [ChatOut.send info.user.id info.mute.get_reason]
  else if message ≠ [] then broadcast st (publicMsg now info.user.login message)
  else []

def emptyPrivMsg : Str := "Can't send an empty private message.\n".data

def noRecipsMsg : Str := "No recipients in your private message.\n".data

def unknownUsersMsg (unknowns : List Str) : Str :=
  "Unknown user(s): ".data ++ List.intercalate ", ".data unknowns ++ "\n".data

/-- The `format!("{} [{}]->[{}] {}\n", now, sender, recipients.join("]+["),
message)` line (recipients in the order given). -/
def privateMsg (now sender : Str) (recipients : List Str) (body : Str) : Str :=
  now ++ " [".data ++ sender ++ "]->[".data ++
    List.intercalate "]+[".data recipients ++ "] ".data ++ body ++ "\n".data

/-- `slice::sort` on the recipient logins: ascending lexicographic
(code-point = byte) order.  Equal recipients are identical strings, so the
sorted permutation is unique and insertion sort gives the same list as the
source's sort. -/
def sortRecips (rs : List Str) : List Str := List.insertionSort (· ≤ ·) rs

/-- The kept prefix of `slice::partition_dedup`: adjacent duplicates
removed. -/
def dedupAdj : List Str → List Str
  | [] => []
  | [a] => [a]
  | a :: b :: rest => if a = b then dedupAdj (b :: rest) else a :: dedupAdj (b :: rest)

/-- The send loop of `ChatService::handle_private_message`: for every
recipient login different from the sender's, resolve the user and send;
`none` models the `expect("ChatService user is missing")` panic. -/
def sendLoop (st : ChatSt) (senderLogin fmt : Str) : List Str → Option (List ChatOut)
  | [] => some []
  | l :: rest =>
      if l ≠ senderLogin then
        match get_user_by_login st l with
        | none => none
        | some u => (sendLoop st senderLogin fmt rest).map
            (fun os => ChatOut.send u.id fmt :: os)
      else sendLoop st senderLogin fmt rest

/-- `ChatService::handle_private_message`: validate (mute, non-empty
body, non-empty recipients, all recipients known), then format once with
the recipients in the given order, sort + adjacent-dedup the recipient
list, send to every kept recipient other than the sender, and finally to
the sender. -/
def handle_private_message (now : Str) (st : ChatSt) (info : UserInfo) (message : Str)
    (recipients : List Str) : Option (List ChatOut) :=
  if !info.mute.private_allowed then some [ChatOut.send info.user.id info.mute.get_reason]
  else if message = [] then some [ChatOut.send info.user.id emptyPrivMsg]
  else if recipients = [] then some [ChatOut.send info.user.id noRecipsMsg]
  else
    let unknowns := recipients.filter (fun l => (look l st.login_id).isNone)
    if unknowns ≠ [] then some [ChatOut.send info.user.id (unknownUsersMsg unknowns)]
    else
      let fmt := privateMsg now info.user.login recipients message
      (sendLoop st info.user.login fmt (dedupAdj (sortRecips recipients))).map
        (fun os => os ++ [ChatOut.send info.user.id fmt])

/-- The static help text of `locale.rs` (that file is not among the given
sources; only its identity as the line sent for `!help` matters to the
claims, never its content). -/
def HELP_EN : Str := "<help text>".data

/-- `ChatService::handle_command`. -/
def handle_command (user : UserC) (command : Str) : List ChatOut :=
  if command = "help".data then [ChatOut.send user.id HELP_EN]
  else if command = "quit".data then [ChatOut.close user.id]
  else if command = "list".data then [ChatOut.game (GameEvent.CommandList user.id)]
  else if command = "observe".data then [ChatOut.game (GameEvent.CommandObserve user.id)]
  else if command = "play".data then [ChatOut.game (GameEvent.CommandPlay user.id)]
  else if command = "pause".data then [ChatOut.game (GameEvent.CommandPause user.id)]
  else if command = "start".data then [ChatOut.game (GameEvent.CommandStart user.id)]
  else [ChatOut.send user.id "Unknown command.\n".data]

/-- `ChatService::handle_action`. -/
def handle_action (user : UserC) (other : Str) : List ChatOut :=
  [ChatOut.game (GameEvent.Action user.id other)]

/-- `ChatService::handle_new_message`: unknown ids return immediately;
otherwise dispatch on `Message::parse`.  `none` models a panic inside the
dispatched handler. -/
def handle_new_message (now : Str) (st : ChatSt) (id : Nat) (line : Str) :
    Option (ChatSt × List ChatOut) :=
  match look id st.users with
  | none => some (st, [])
  | some info =>
      match Message.parse line with
      | none => none
      | some (Message.Public m) => some (st, handle_public_message now st info m)
      | some (Message.Private m rs) =>
          (handle_private_message now st info m rs).map (fun os => (st, os))
      | some (Message.Command c) => some (st, handle_command info.user c)
      | some (Message.Action a) => some (st, handle_action info.user a)

/-- `login_service::UserEvent` as consumed by the chat service. -/
inductive UserEvent : Type
  | NewUser (u : UserC)
  | NewMessage (id : Nat) (line : Str)
  | DropUser (id : Nat)
deriving DecidableEq

/-- One inbound message of the chat `run` loop: a `UserEvent` or a
`ChatRequest::MutePlayer`. -/
inductive ChatEvent : Type
  | user (e : UserEvent)
  | mutePlayer (id : Nat) (level : MuteLevel)
deriving DecidableEq

/-- One iteration of `ChatService::run`. -/
def chat_step (now : Str) (st : ChatSt) : ChatEvent → Option (ChatSt × List ChatOut)
  | .user (.NewUser u) => some (handle_new_user now st u)
  | .user (.NewMessage id line) => handle_new_message now st id line
  | .user (.DropUser id) => some (handle_drop_user now st id)
  | .mutePlayer id level => some (handle_mute_request st id level, [])

/-- Folding `chat_step` over a sequence of handled events. -/
def chat_run (now : Str) (st : ChatSt) : List ChatEvent → Option ChatSt
  | [] => some st
  | e :: es => (chat_step now st e).bind (fun p => chat_run now p.1 es)

/-- The claimed invariant: the `login_id` map is a bijection over the
currently-connected participants — every login in the map belongs to a
participant present in `users` (with matching login and id), and every
participant's login maps back to its id. -/
def LoginIdBij (st : ChatSt) : Prop :=
  (∀ l i, look l st.login_id = some i →
    ∃ info, look i st.users = some info ∧ info.user.login = l ∧ info.user.id = i) ∧
  (∀ i info, look i st.users = some info → look info.user.login st.login_id = some i)

/-- A one-participant chat state used to witness C4: alice, still muted
with the default observer `DenyAll`. -/
def wInfo4 : UserInfo := ⟨⟨1, "alice".data⟩, MuteLevel.DenyAll observerReason⟩

def wSt4 : ChatSt := ⟨[(1, wInfo4)], [("alice".data, 1)]⟩

/-- A two-participant chat state used to witness C3: `alice` (id 1) and
`bob` (id 2), both unmuted. -/
def wInfoA : UserInfo := ⟨⟨1, "alice".data⟩, MuteLevel.AllowAll⟩

def wInfoB : UserInfo := ⟨⟨2, "bob".data⟩, MuteLevel.AllowAll⟩

def wStC : ChatSt := ⟨[(1, wInfoA), (2, wInfoB)], [("alice".data, 1), ("bob".data, 2)]⟩

/-- The event sequence exhibiting the C1 violation: alice connects, then
disconnects (her `login_id` entry survives), bob connects and is unmuted
by the game. -/
def wEvents : List ChatEvent :=
  [ChatEvent.user (UserEvent.NewUser ⟨1, "alice".data⟩),
   ChatEvent.user (UserEvent.DropUser 1),
   ChatEvent.user (UserEvent.NewUser ⟨2, "bob".data⟩),
   ChatEvent.mutePlayer 2 MuteLevel.AllowAll]

/-- The chat state after `wEvents`. -/
def wStBad : ChatSt :=
  ⟨[(2, ⟨⟨2, "bob".data⟩, MuteLevel.AllowAll⟩)], [("bob".data, 2), ("alice".data, 1)]⟩

end Chat

/-! ### Login service (`login_service.rs`): definitions -/

namespace Login

/-- `login_service::User` (id + login; the `SocketProxy` it carries is
represented by the id, which keys every send). -/
structure UserL where
  id : Nat
  login : Str
deriving DecidableEq

/-- `login_service::AuthState`. -/
inductive AuthState : Type
  | Initial
  | GotLogin (login : Str)
  | Ok (u : UserL)
deriving DecidableEq

/-- `login_service::LoginState`. -/
inductive LoginState : Type
  | Online (password : Str)
  | Offline (password : Str)
deriving DecidableEq

/-- `LoginService` state: the `auth_state` and `login_state` maps. -/
structure LoginSt where
  auth_state : List (Nat × AuthState)
  login_state : List (Str × LoginState)
deriving DecidableEq

/-- `login_service::UserEvent` emitted upward to the chat service. -/
inductive UserEvent : Type
  | NewUser (u : UserL)
  | NewMessage (id : Nat) (data : Str)
  | DropUser (id : Nat)
deriving DecidableEq

/-- Observable effect of a login handler: a prompt sent on a connection's
proxy, or a `UserEvent` emitted upward. -/
inductive LoginOut : Type
  | send (id : Nat) (msg : Str)
  | userEv (e : UserEvent)
deriving DecidableEq

/-- `socket_service::SocketEvent` as consumed by the login service (the
`NewSocket` proxy is represented by its id). -/
inductive SocketEvent : Type
  | NewSocket (id : Nat)
  | NewMessage (id : Nat) (data : Str)
  | ClosedSocket (id : Nat)
deriving DecidableEq

def welcomeBanner : Str :=
  "Welcome to the Mafia server!\nPlease enter your nickname: ".data

def alreadyOnlineMsg (login : Str) : Str :=
  "Player \"".data ++ login ++ "\" is already online.\nPlease enter your nickname: ".data

def passwordPrompt (login : Str) : Str :=
  "Password for \"".data ++ login ++ "\": ".data

def creatingPrompt (login : Str) : Str :=
  "Creating player \"".data ++ login ++ "\". Enter password: ".data

def welcomeBackMsg (login : Str) : Str :=
  "Welcome back, ".data ++ login ++ "!\n".data

def passwordCreatedMsg (login : Str) : Str :=
  "Password created. Welcome, ".data ++ login ++ "!\n".data

def incorrectPasswordMsg : Str :=
  "Incorrect password.\nPlease enter your nickname: ".data

/-- `LoginService::handle_new_socket`. -/
def handle_new_socket (st : LoginSt) (id : Nat) : LoginSt × List LoginOut :=
  ({ st with auth_state := upd id AuthState.Initial st.auth_state },
   [LoginOut.send id welcomeBanner])

/-- `LoginService::handle_new_message`: the per-connection authentication
state machine.  The source removes the slot, computes the new state and
inserts it back (`upd`); in the `GotLogin` arm the `login_state` entry is
likewise removed and re-inserted. -/
def handle_new_message (st : LoginSt) (id : Nat) (data : Str) : LoginSt × List LoginOut :=
  match look id st.auth_state with
  | none => (st, [])
  | some AuthState.Initial =>
      match look data st.login_state with
      | some (LoginState.Online _) =>
          ({ st with auth_state := upd id AuthState.Initial st.auth_state },
           [LoginOut.send id (alreadyOnlineMsg data)])
      | some (LoginState.Offline _) =>
          ({ st with auth_state := upd id (AuthState.GotLogin data) st.auth_state },
           [LoginOut.send id (passwordPrompt data)])
      | none =>
          ({ st with auth_state := upd id (AuthState.GotLogin data) st.auth_state },
           [LoginOut.send id (creatingPrompt data)])
  | some (AuthState.GotLogin login) =>
      match look login st.login_state with
      | some (LoginState.Online pw) =>
          ({ auth_state := upd id AuthState.Initial st.auth_state,
             login_state := upd login (LoginState.Online pw) st.login_state },
           [LoginOut.send id (alreadyOnlineMsg login)])
      | some (LoginState.Offline real_password) =>
          if data = real_password then
            ({ auth_state := upd id (AuthState.Ok ⟨id, login⟩) st.auth_state,
               login_state := upd login (LoginState.Online real_password) st.login_state },
             [LoginOut.send id (welcomeBackMsg login),
              LoginOut.userEv (UserEvent.NewUser ⟨id, login⟩)])
          else
            ({ auth_state := upd id AuthState.Initial st.auth_state,
               login_state := upd login (LoginState.Offline real_password) st.login_state },
             [LoginOut.send id incorrectPasswordMsg])
      | none =>
          ({ auth_state := upd id (AuthState.Ok ⟨id, login⟩) st.auth_state,
             login_state := upd login (LoginState.Online data) st.login_state },
           [LoginOut.send id (passwordCreatedMsg login),
            LoginOut.userEv (UserEvent.NewUser ⟨id, login⟩)])
  | some (AuthState.Ok user) =>
      ({ st with auth_state := upd id (AuthState.Ok user) st.auth_state },
       [LoginOut.userEv (UserEvent.NewMessage user.id data)])

/-- `LoginService::handle_closed_socket`; `none` models the
`panic!("LoginService user is authenticated, but not online")`. -/
def handle_closed_socket (st : LoginSt) (id : Nat) : Option (LoginSt × List LoginOut) :=
  match look id st.auth_state with
  | some (AuthState.Ok user) =>
      match look user.login st.login_state with
      | some (LoginState.Online password) =>
          some ({ auth_state := rem id st.auth_state,
                  login_state := upd user.login (LoginState.Offline password) st.login_state },
                [LoginOut.userEv (UserEvent.DropUser user.id)])
      | _ => none
  | some _ => some ({ st with auth_state := rem id st.auth_state }, [])
  | none => some (st, [])

/-- One iteration of `LoginService::run`. -/
def login_step (st : LoginSt) : SocketEvent → Option (LoginSt × List LoginOut)
  | .NewSocket id => some (handle_new_socket st id)
  | .NewMessage id data => some (handle_new_message st id data)
  | .ClosedSocket id => handle_closed_socket st id

/-- An account is online. -/
def isOnline (st : LoginSt) (l : Str) : Prop :=
  ∃ pw, look l st.login_state = some (LoginState.Online pw)

/-- The claimed invariant: an account is `Online` iff exactly one
connection's auth slot is authenticated with that login, and an
authenticated slot's user id is its connection id. -/
def LoginInv (st : LoginSt) : Prop :=
  (∀ l, isOnline st l ↔
    ∃ i u, look i st.auth_state = some (AuthState.Ok u) ∧ u.login = l) ∧
  (∀ i u, look i st.auth_state = some (AuthState.Ok u) → u.id = i) ∧
  (∀ i j u v, look i st.auth_state = some (AuthState.Ok u) →
    look j st.auth_state = some (AuthState.Ok v) → u.login = v.login → i = j)

/-- A login state used to witness C5: connection 1 has sent the login
`alice` of an offline account with password `pw`. -/
def wStL : LoginSt :=
  ⟨[(1, AuthState.GotLogin "alice".data)], [("alice".data, LoginState.Offline "pw".data)]⟩

/-- A login state used to witness C6: connection 1 is authenticated as
`alice`, whose account is online with secret `pw`; the handled event is
the closing of connection 1. -/
def wStL2 : LoginSt :=
  ⟨[(1, AuthState.Ok ⟨1, "alice".data⟩)], [("alice".data, LoginState.Online "pw".data)]⟩

end Login

/-! ### Socket service (`socket_service.rs`): definitions -/

namespace Socket

/-- The inbound messages multiplexed by `SocketService::run`: an accepted
connection, a result from a connection's reader task, and a downward
request.  A `reqSend` carries whether the awaited `write_all` fails
(chosen by the environment).  One trace is one interleaving the `select!`
loop may consume; a read result enqueued by a reader task before the
writer was closed is delivered as a later trace element. -/
inductive SockIn : Type
  | conn (id : Nat)
  | readOk (id : Nat) (data : Str)
  | readClosed (id : Nat)
  | readUtf8Err (id : Nat)
  | readIoErr (id : Nat)
  | reqSend (id : Nat) (msg : Str) (wfail : Bool)
  | reqClose (id : Nat)
deriving DecidableEq

/-- `socket_service::SocketEvent` emitted upward (the `NewSocket` proxy is
represented by its id). -/
inductive SockEv : Type
  | NewSocket (id : Nat)
  | NewMessage (id : Nat) (data : Str)
  | ClosedSocket (id : Nat)
deriving DecidableEq

def inpId : SockIn → Nat
  | .conn i => i
  | .readOk i _ => i
  | .readClosed i => i
  | .readUtf8Err i => i
  | .readIoErr i => i
  | .reqSend i _ _ => i
  | .reqClose i => i

def evId : SockEv → Nat
  | .NewSocket i => i
  | .NewMessage i _ => i
  | .ClosedSocket i => i

/-- `SocketService::close_connection`: emits `ClosedSocket` only if the
writer was present, and drops it.  The state is the key set of
`socket_writer`. -/
def close_connection (ws : List Nat) (id : Nat) : List Nat × List SockEv :=
  if id ∈ ws then (ws.filter (fun j => decide (j ≠ id)), [SockEv.ClosedSocket id])
  else (ws, [])

/-- One iteration of `SocketService::run`: `handle_connection` inserts the
writer and emits `NewSocket`; `handle_read` forwards `Ok` results as
`NewMessage` unconditionally and closes on `Closed`/`Utf8Error`/`IoError`;
`handle_request` writes (closing on a write error) or closes. -/
def sock_step (ws : List Nat) : SockIn → List Nat × List SockEv
  | .conn id => (id :: ws.filter (fun j => decide (j ≠ id)), [SockEv.NewSocket id])
  | .readOk id data => (ws, [SockEv.NewMessage id data])
  | .readClosed id => close_connection ws id
  | .readUtf8Err id => close_connection ws id
  | .readIoErr id => close_connection ws id
  | .reqSend id _ wfail =>
      if id ∈ ws then
        if wfail then close_connection ws id else (ws, [])
      else (ws, [])
  | .reqClose id =>
      if id ∈ ws then close_connection ws id else (ws, [])

/-- Folding `sock_step` over an input trace, collecting emitted events. -/
def sock_run (ws : List Nat) : List SockIn → List Nat × List SockEv
  | [] => (ws, [])
  | e :: es =>
      let p := sock_step ws e
      let q := sock_run p.1 es
      (q.1, p.2 ++ q.2)

/-- No `NewSocket`/`ClosedSocket` event for `id` occurs in `evs`. -/
def noNSCS (id : Nat) (evs : List SockEv) : Prop :=
  ∀ e ∈ evs, e ≠ SockEv.NewSocket id ∧ e ≠ SockEv.ClosedSocket id

/-- The claim's "no event for that id after `ClosedSocket(id)`". -/
def NoEventAfterClose (id : Nat) (evs : List SockEv) : Prop :=
  ∀ pre post, evs = pre ++ SockEv.ClosedSocket id :: post → ∀ e ∈ post, evId e ≠ id

/-- A realizable interleaving: connection 0 is accepted, the client sends
a line (the reader enqueues the read result), an upper layer's close
request is consumed by the `select!` loop before the queued read result. -/
def wTrace : List SockIn :=
  [SockIn.conn 0, SockIn.reqClose 0, SockIn.readOk 0 "hi".data]

/-- A protocol-respecting interleaving: accept, one line read, an upper
layer close request. -/
def wGoodTrace : List SockIn :=
  [SockIn.conn 0, SockIn.readOk 0 "hi".data, SockIn.reqClose 0]

end Socket

/-! ### Socket reader (`SocketReader` in `socket_service.rs`): definitions -/

namespace Reader

/-- A read result produced by one connection's reader (the id is omitted:
one reader per connection).  Line payloads are byte lists — a delivered
line is represented by the bytes of its UTF-8 encoding. -/
inductive RdRes : Type
  | ok (line : List Nat)
  | closed
  | utf8Err
deriving DecidableEq

/-- UTF-8 continuation byte. -/
def contB (b : Nat) : Bool := 0x80 ≤ b && b ≤ 0xBF

/-- Well-formed UTF-8 (what `std::str::from_utf8` accepts): ASCII,
2–4-byte sequences with the RFC 3629 ranges, rejecting overlongs and
surrogates. -/
def utf8Valid : List Nat → Bool
  | [] => true
  | b :: r =>
    if b ≤ 0x7F then utf8Valid r
    else if 0xC2 ≤ b && b ≤ 0xDF then
      match r with
      | c :: r2 => contB c && utf8Valid r2
      | [] => false
    else if b = 0xE0 then
      match r with
      | c :: d :: r2 => (0xA0 ≤ c && c ≤ 0xBF) && contB d && utf8Valid r2
      | _ => false
    else if (0xE1 ≤ b && b ≤ 0xEC) || b = 0xEE || b = 0xEF then
      match r with
      | c :: d :: r2 => contB c && contB d && utf8Valid r2
      | _ => false
    else if b = 0xED then
      match r with
      | c :: d :: r2 => (0x80 ≤ c && c ≤ 0x9F) && contB d && utf8Valid r2
      | _ => false
    else if b = 0xF0 then
      match r with
      | c :: d :: e :: r2 => (0x90 ≤ c && c ≤ 0xBF) && contB d && contB e && utf8Valid r2
      | _ => false
    else if 0xF1 ≤ b && b ≤ 0xF3 then
      match r with
      | c :: d :: e :: r2 => contB c && contB d && contB e && utf8Valid r2
      | _ => false
    else if b = 0xF4 then
      match r with
      | c :: d :: e :: r2 => (0x80 ≤ c && c ≤ 0x8F) && contB d && contB e && utf8Valid r2
      | _ => false
    else false

/-- ASCII whitespace byte — the fragment of `char::is_whitespace` that
`str::trim` applies within the byte-modelled lines. -/
def wsB (b : Nat) : Bool := b == 32 || b == 9 || b == 10 || b == 13

/-- `str::trim` on the byte model: whitespace stripped from both ends. -/
def trimBytes (l : List Nat) : List Nat :=
  ((l.dropWhile wsB).reverse.dropWhile wsB).reverse

/-- The scan of `SocketReader::handle_data`: each byte up to a `'\n'`
extends the current line; at each `'\n'` a complete line is produced;
bytes after the last `'\n'` (the accumulator at the end) are dropped —
the source keeps no carry-over between reads. -/
def splitLinesAux : List Nat → List Nat → List (List Nat)
  | [], _ => []
  | b :: rest, cur =>
      if b = 10 then cur.reverse :: splitLinesAux rest []
      else splitLinesAux rest (b :: cur)

/-- Emitting the complete lines of one chunk: each valid line is sent
trimmed; the first invalid line sends `Utf8Error` and stops the reader
(the returned flag is `keep_running`). -/
def emitLines : List (List Nat) → List RdRes × Bool
  | [] => ([], true)
  | l :: ls =>
      if utf8Valid l then
        ((RdRes.ok (trimBytes l)) :: (emitLines ls).1, (emitLines ls).2)
      else ([RdRes.utf8Err], false)

/-- `SocketReader::handle_data`: an empty read signals peer close. -/
def handle_data (data : List Nat) : List RdRes × Bool :=
  if data = [] then ([RdRes.closed], false)
  else emitLines (splitLinesAux data [])

/-- `SocketReader::read_forever` over the successive reads into the
1024-byte buffer (each list element is the filled prefix of one read),
while `keep_running` holds. -/
def read_forever : List (List Nat) → List RdRes
  | [] => []
  | chunk :: chunks =>
      if (handle_data chunk).2 then (handle_data chunk).1 ++ read_forever chunks
      else (handle_data chunk).1

end Reader

/-! ### Theorems -/

section AssocMapLemmas

variable {κ ν : Type} [DecidableEq κ]

@[simp] theorem look_nil (k : κ) : look k ([] : List (κ × ν)) = none := rfl

theorem look_cons (k : κ) (p : κ × ν) (m : List (κ × ν)) :
    look k (p :: m) = if p.1 = k then some p.2 else look k m := by
  by_cases h : p.1 = k <;> simp [look, List.find?, h]

theorem rem_cons (k : κ) (p : κ × ν) (m : List (κ × ν)) :
    rem k (p :: m) = if p.1 = k then rem k m else p :: rem k m := by
  by_cases h : p.1 = k <;> simp [rem, List.filter_cons, h]

theorem look_rem (k k' : κ) (m : List (κ × ν)) :
    look k' (rem k m) = if k' = k then none else look k' m := by
  induction m with
  | nil => by_cases h : k' = k <;> simp [rem, h]
  | cons p m ih =>
      rw [rem_cons]
      by_cases hp : p.1 = k
      · rw [if_pos hp, ih]
        by_cases hk : k' = k
        · rw [if_pos hk, if_pos hk]
        · rw [if_neg hk, if_neg hk, look_cons, if_neg]
          rw [hp]; exact fun h => hk h.symm
      · rw [if_neg hp, look_cons, look_cons]
        by_cases hq : p.1 = k'
        · rw [if_pos hq, if_pos hq, if_neg]
          intro hk; apply hp; rw [hq, hk]
        · rw [if_neg hq, if_neg hq, ih]

theorem look_upd (k k' : κ) (v : ν) (m : List (κ × ν)) :
    look k' (upd k v m) = if k' = k then some v else look k' m := by
  by_cases h : k' = k <;> simp [upd, look_cons, look_rem, h]
  · intro h2; exact absurd h2.symm h

@[simp] theorem look_upd_self (k : κ) (v : ν) (m : List (κ × ν)) :
    look k (upd k v m) = some v := by simp [look_upd]

theorem look_upd_ne (k k' : κ) (v : ν) (m : List (κ × ν)) (h : k' ≠ k) :
    look k' (upd k v m) = look k' m := by simp [look_upd, h]

@[simp] theorem look_rem_self (k : κ) (m : List (κ × ν)) :
    look k (rem k m) = none := by simp [look_rem]

theorem look_rem_ne (k k' : κ) (m : List (κ × ν)) (h : k' ≠ k) :
    look k' (rem k m) = look k' m := by simp [look_rem, h]

end AssocMapLemmas

theorem length_dropWhile_le {α : Type} (p : α → Bool) (l : List α) :
    (l.dropWhile p).length ≤ l.length := by
  induction l with
  | nil => simp
  | cons a l ih =>
      by_cases h : p a
      · simp only [List.dropWhile_cons, h, if_true, List.length_cons]
        omega
      · simp [List.dropWhile_cons, h]

/-- Soundness of the tokenizer: every token is non-empty, its offset is at
least the running offset `k`, and the token is literally present in the
scanned list at its offset. -/
theorem wordsOff_sound (l : List Char) (k : Nat) :
    ∀ off w, (off, w) ∈ wordsOff l k →
      w ≠ [] ∧ k ≤ off ∧ ∃ t, l.drop (off - k) = w ++ t := by
  induction l, k using wordsOff.induct with
  | case1 k => intro off w h; simp [wordsOff] at h
  | case2 c rest k hws ih =>
      intro off w h
      rw [wordsOff, if_pos hws] at h
      obtain ⟨hne, hk, t, ht⟩ := ih off w h
      refine ⟨hne, by omega, t, ?_⟩
      have : off - k = (off - (k + 1)) + 1 := by omega
      rw [this, List.drop_succ_cons, ht]
  | case3 c rest k hws ih =>
      intro off w h
      rw [wordsOff, if_neg hws] at h
      set tw := rest.takeWhile (fun d => !isWs d) with htw
      set dw := rest.dropWhile (fun d => !isWs d) with hdw
      have hrest : rest = tw ++ dw := by
        rw [htw, hdw, List.takeWhile_append_dropWhile]
      rcases List.mem_cons.mp h with heq | hmem
      · obtain ⟨h1, h2⟩ := Prod.mk.injEq .. ▸ heq
        subst h1; subst h2
        refine ⟨by simp, Nat.le_refl _, dw, ?_⟩
        rw [Nat.sub_self, List.drop_zero, List.cons_append, hrest]
      · obtain ⟨hne, hk, t, ht⟩ := ih off w hmem
        refine ⟨hne, by omega, t, ?_⟩
        have hstep : off - k = (tw.length + (off - (k + 1 + tw.length))) + 1 := by
          omega
        rw [hstep, List.drop_succ_cons, hrest, List.drop_append, ht]

theorem privLoop_spec (line : Str) :
    ∀ (toks : List (Nat × Str)) (acc : List Str),
      (∀ p ∈ toks, p.2 ≠ []) →
      Message.privLoop line acc toks =
        some (Message.Private
          (match (toks.dropWhile plusTok).head? with
           | none => []
           | some (off, _) => line.drop off)
          (acc.reverse ++ (toks.takeWhile plusTok).map (fun p => p.2.tail))) := by
  intro toks
  induction toks with
  | nil => intro acc _; simp [Message.privLoop]
  | cons p rest ih =>
      intro acc hne
      obtain ⟨off, w⟩ := p
      have hw : w ≠ [] := hne (off, w) (List.mem_cons_self _ _)
      obtain ⟨c, wt, hcw⟩ : ∃ c wt, w = c :: wt := by
        cases w with
        | nil => exact absurd rfl hw
        | cons c wt => exact ⟨c, wt, rfl⟩
      subst hcw
      by_cases hc : c = '+'
      · have hplus : plusTok (off, c :: wt) = true := by
          simp [plusTok, hc]
        rw [List.takeWhile_cons, List.dropWhile_cons]
        simp only [hplus, if_true, cond_true]
        rw [Message.privLoop]
        simp only [Message.first_char, List.head?, Message.remove_first_char]
        rw [if_pos hc]
        rw [ih (wt :: acc) (fun q hq => hne q (List.mem_cons_of_mem _ hq))]
        cases hdw : List.dropWhile plusTok rest with
        | nil => simp [hdw]
        | cons q qs => simp [hdw]
      · have hplus : plusTok (off, c :: wt) = false := by
          simp [plusTok, hc]
        rw [List.takeWhile_cons, List.dropWhile_cons]
        simp only [hplus, if_false, cond_false]
        rw [Message.privLoop]
        simp only [Message.first_char, List.head?]
        rw [if_neg hc]
        simp

/-- C2: for every input line whose first character is `'+'`,
`Message::parse` returns a `Private` message whose recipient list is
exactly the maximal run of leading whitespace-separated tokens beginning
with `'+'` (each with the `'+'` stripped, in input order) and whose body
is the suffix of the original line at the offset of the first token not
beginning with `'+'` (whitespace preserved verbatim; empty when every
token begins with `'+'`). -/
theorem claim_C2 (line : Str) (h : line.head? = some '+') :
    Message.parse line = some (Message.Private (specBody line) (specRecips line)) ∧
    (∀ off w, ((wordsOff line 0).dropWhile plusTok).head? = some (off, w) →
      line.take off ++ specBody line = line ∧ ∃ t, specBody line = w ++ t) := by
  constructor
  · rw [Message.parse, if_pos h, Message.parse_private,
        privLoop_spec line (wordsOff line 0) []
          (fun p hp => (wordsOff_sound line 0 p.1 p.2 hp).1)]
    rw [specBody, specRecips]
    simp
  · intro off w hhd
    have hmem : (off, w) ∈ wordsOff line 0 := by
      have hsub : List.Sublist ((wordsOff line 0).dropWhile plusTok) (wordsOff line 0) :=
        List.dropWhile_sublist _
      exact hsub.mem (List.mem_of_mem_head? hhd)
    obtain ⟨hne, _, t, ht⟩ := wordsOff_sound line 0 off w hmem
    rw [Nat.sub_zero] at ht
    have hbody : specBody line = line.drop off := by
      rw [specBody, hhd]
    refine ⟨?_, ?_⟩
    · rw [hbody, List.take_append_drop]
    · exact ⟨t, by rw [hbody, ht]⟩

theorem claim_C2_witness :
    (("+a +b +c hello world".data).head? = some '+') ∧
    Message.parse "+a +b +c hello world".data =
      some (Message.Private "hello world".data ["a".data, "b".data, "c".data]) := by
  refine ⟨by decide, ?_⟩
  rw [(claim_C2 "+a +b +c hello world".data (by decide)).1]
  simp +decide [specBody, specRecips, plusTok, wordsOff, isWs]

/-- C9: `Message::parse` is total — for every input line (including `""`,
`"!"`, `"+"`, `"!!"`) it returns a message; the `"No first character"`
panic branches (modelled by `none`) are unreachable. -/
theorem claim_C9 (line : Str) : ∃ m, Message.parse line = some m := by
  rw [Message.parse]
  by_cases hplus : line.head? = some '+'
  · rw [if_pos hplus, Message.parse_private,
        privLoop_spec _ _ []
          (fun p hp => (wordsOff_sound _ 0 p.1 p.2 hp).1)]
    exact ⟨_, rfl⟩
  · rw [if_neg hplus]
    by_cases hbang : line.head? = some '!'
    · rw [if_pos hbang, Message.parse_command]
      obtain ⟨t, rfl⟩ : ∃ t, line = '!' :: t := by
        cases line with
        | nil => simp [List.head?] at hbang
        | cons d t =>
            simp only [List.head?, Option.some.injEq] at hbang
            exact ⟨t, by rw [hbang]⟩
      simp only [Message.remove_first_char]
      by_cases ht : t.head? = some '!'
      · rw [if_pos ht]
        obtain ⟨t2, rfl⟩ : ∃ t2, t = '!' :: t2 := by
          cases t with
          | nil => simp [List.head?] at ht
          | cons d t2 =>
              simp only [List.head?, Option.some.injEq] at ht
              exact ⟨t2, by rw [ht]⟩
        exact ⟨Message.Action t2, rfl⟩
      · rw [if_neg ht]
        exact ⟨Message.Command t, rfl⟩
    · rw [if_neg hbang]
      exact ⟨Message.Public line, rfl⟩

namespace Chat

theorem mem_dedupAdj : ∀ (l : List Str) (a : Str), a ∈ dedupAdj l ↔ a ∈ l
  | [], a => by simp [dedupAdj]
  | [b], a => by simp [dedupAdj]
  | b :: c :: rest, a => by
      by_cases h : b = c
      · rw [dedupAdj, if_pos h, mem_dedupAdj (c :: rest) a]
        subst h
        simp
      · rw [dedupAdj, if_neg h]
        simp [mem_dedupAdj (c :: rest) a]

theorem nodup_dedupAdj : ∀ (l : List Str), l.Sorted (· ≤ ·) → (dedupAdj l).Nodup
  | [], _ => by simp [dedupAdj]
  | [a], _ => by simp [dedupAdj]
  | a :: b :: rest, h => by
      obtain ⟨ha, hbr⟩ := List.sorted_cons.mp h
      by_cases hab : a = b
      · rw [dedupAdj, if_pos hab]
        exact nodup_dedupAdj (b :: rest) hbr
      · rw [dedupAdj, if_neg hab]
        refine List.nodup_cons.mpr ⟨?_, nodup_dedupAdj (b :: rest) hbr⟩
        intro hmem
        rcases List.mem_cons.mp ((mem_dedupAdj _ _).mp hmem) with h1 | h2
        · exact hab h1
        · obtain ⟨hb, _⟩ := List.sorted_cons.mp hbr
          exact hab (le_antisymm (ha b (List.mem_cons_self _ _)) (hb a h2))

theorem sendLoop_spec (st : ChatSt) (hwf : LoginIdBij st) (sl fmt : Str) :
    ∀ ls : List Str, (∀ l ∈ ls, (look l st.login_id).isSome) →
      sendLoop st sl fmt ls =
        some ((ls.filter (fun l => decide (l ≠ sl))).map
          (fun l => ChatOut.send ((look l st.login_id).getD 0) fmt)) := by
  intro ls
  induction ls with
  | nil => intro _; simp [sendLoop]
  | cons l rest ih =>
      intro hall
      have hrest := fun x hx => hall x (List.mem_cons_of_mem _ hx)
      by_cases hl : l = sl
      · rw [sendLoop, if_neg (fun h => h hl), ih hrest]
        simp [hl]
      · obtain ⟨i, hi⟩ := Option.isSome_iff_exists.mp (hall l (List.mem_cons_self _ _))
        obtain ⟨info2, hinfo2, hlog2, hid2⟩ := hwf.1 l i hi
        have hguser : get_user_by_login st l = some info2.user := by
          simp [get_user_by_login, hi, hinfo2]
        rw [sendLoop, if_pos hl, hguser, ih hrest]
        simp [hl, hi, hid2]

/-- C10: a `NewMessage` whose id has no participant entry is a complete
no-op — no output and the state unchanged. -/
theorem claim_C10 (now : Str) (st : ChatSt) (id : Nat) (line : Str)
    (h : look id st.users = none) :
    handle_new_message now st id line = some (st, []) := by
  rw [handle_new_message, h]

theorem claim_C10_witness :
    look 7 (ChatSt.mk [] []).users = none ∧
    handle_new_message "12:00".data (ChatSt.mk [] []) 7 "hello".data =
      some (ChatSt.mk [] [], []) :=
  ⟨rfl, claim_C10 "12:00".data (ChatSt.mk [] []) 7 "hello".data rfl⟩

/-- C4: private-message validation runs in the order mute, non-empty
body, non-empty recipient list, all recipients known; the first failing
check sends exactly one error line to the sender only, nothing is
delivered, and the chat state is unchanged. -/
theorem claim_C4 (now : Str) (st : ChatSt) (id : Nat) (line body : Str)
    (recips : List Str) (info : UserInfo)
    (hlook : look id st.users = some info)
    (hparse : Message.parse line = some (Message.Private body recips)) :
    (∀ r, info.mute = MuteLevel.DenyAll r →
      handle_new_message now st id line = some (st, [ChatOut.send info.user.id r])) ∧
    (info.mute.private_allowed = true → body = [] →
      handle_new_message now st id line = some (st, [ChatOut.send info.user.id emptyPrivMsg])) ∧
    (info.mute.private_allowed = true → body ≠ [] → recips = [] →
      handle_new_message now st id line = some (st, [ChatOut.send info.user.id noRecipsMsg])) ∧
    (info.mute.private_allowed = true → body ≠ [] → recips ≠ [] →
      recips.filter (fun l => (look l st.login_id).isNone) ≠ [] →
      handle_new_message now st id line = some (st, [ChatOut.send info.user.id
        (unknownUsersMsg (recips.filter (fun l => (look l st.login_id).isNone)))])) := by
  have hbase : ∀ os, handle_private_message now st info body recips = some os →
      handle_new_message now st id line = some (st, os) := by
    intro os hos
    simp only [handle_new_message, hlook, hparse, hos]
    rfl
  refine ⟨?_, ?_, ?_, ?_⟩
  · intro r hr
    apply hbase
    rw [handle_private_message, if_pos]
    · rw [hr]; rfl
    · rw [hr]; rfl
  · intro hm hb
    apply hbase
    rw [handle_private_message, if_neg (by simp [hm]), if_pos hb]
  · intro hm hb hr
    apply hbase
    rw [handle_private_message, if_neg (by simp [hm]), if_neg hb, if_pos hr]
  · intro hm hb hr hu
    apply hbase
    rw [handle_private_message, if_neg (by simp [hm]), if_neg hb, if_neg hr]
    simp only [if_pos hu]

theorem claim_C4_witness :
    (look 1 wSt4.users = some wInfo4) ∧
    (Message.parse "+bob hi".data = some (Message.Private "hi".data ["bob".data])) ∧
    handle_new_message "12:00".data wSt4 1 "+bob hi".data =
      some (wSt4, [ChatOut.send 1 observerReason]) := by
  have hparse : Message.parse "+bob hi".data = some (Message.Private "hi".data ["bob".data]) := by
    simp +decide [Message.parse, Message.parse_private, Message.privLoop,
      Message.first_char, Message.remove_first_char, wordsOff, isWs]
  refine ⟨by decide, hparse, ?_⟩
  exact (claim_C4 "12:00".data wSt4 1 "+bob hi".data "hi".data ["bob".data] wInfo4
    (by decide) hparse).1 observerReason rfl

/-- C3: a valid private message is formatted once, with the recipients in
their original given order, then the recipient list is sorted and
adjacent duplicates removed; the formatted line goes exactly once to each
distinct recipient other than the sender, and exactly once to the sender
(even if the sender listed themself repeatedly). -/
theorem claim_C3 (now : Str) (st : ChatSt) (info : UserInfo) (body : Str) (recips : List Str)
    (hwf : LoginIdBij st)
    (hmute : info.mute.private_allowed = true)
    (hbody : body ≠ []) (hrec : recips ≠ [])
    (hknown : ∀ l ∈ recips, (look l st.login_id).isSome)
    (hself : look info.user.id st.users = some info) :
    ∃ ids : List Nat,
      handle_private_message now st info body recips =
        some (ids.map (fun i => ChatOut.send i (privateMsg now info.user.login recips body))) ∧
      ids.Nodup ∧
      (∀ i, i ∈ ids ↔ (i = info.user.id ∨
        ∃ l, l ∈ recips ∧ l ≠ info.user.login ∧ look l st.login_id = some i)) := by
  set sl := info.user.login with hsl
  set sid := info.user.id with hsid0
  set fmt := privateMsg now sl recips body with hfmt
  set kept := (dedupAdj (sortRecips recips)).filter (fun l => decide (l ≠ sl)) with hkept
  set idOf := fun l => (look l st.login_id).getD 0 with hidOf
  have hmemDS : ∀ l, l ∈ dedupAdj (sortRecips recips) ↔ l ∈ recips := by
    intro l
    rw [mem_dedupAdj, sortRecips]
    exact (List.perm_insertionSort _ recips).mem_iff
  have hknownDS : ∀ l ∈ dedupAdj (sortRecips recips), (look l st.login_id).isSome :=
    fun l hl => hknown l ((hmemDS l).mp hl)
  have hunk : recips.filter (fun l => (look l st.login_id).isNone) = [] := by
    apply List.filter_eq_nil_iff.mpr
    intro a ha
    obtain ⟨i, hi⟩ := Option.isSome_iff_exists.mp (hknown a ha)
    simp [hi]
  refine ⟨kept.map idOf ++ [sid], ?_, ?_, ?_⟩
  · rw [handle_private_message, if_neg (by simp [hmute]), if_neg hbody, if_neg hrec]
    simp only [hunk]
    rw [if_neg (fun h => h rfl)]
    rw [sendLoop_spec st hwf sl fmt _ hknownDS]
    rw [hkept, hidOf]
    simp [List.map_append, List.map_map, Function.comp]
  · have hkeptnd : kept.Nodup := by
      refine List.Nodup.filter _ (nodup_dedupAdj (sortRecips recips) ?_)
      rw [sortRecips]
      exact List.sorted_insertionSort _ _
    have hinj : ∀ x ∈ kept, ∀ y ∈ kept, idOf x = idOf y → x = y := by
      intro x hx y hy hxy
      have hxr : x ∈ recips := (hmemDS x).mp (List.mem_of_mem_filter hx)
      have hyr : y ∈ recips := (hmemDS y).mp (List.mem_of_mem_filter hy)
      obtain ⟨ix, hix⟩ := Option.isSome_iff_exists.mp (hknown x hxr)
      obtain ⟨iy, hiy⟩ := Option.isSome_iff_exists.mp (hknown y hyr)
      obtain ⟨infox, hinfox, hlogx, _⟩ := hwf.1 x ix hix
      obtain ⟨infoy, hinfoy, hlogy, _⟩ := hwf.1 y iy hiy
      rw [hidOf] at hxy
      simp only [hix, hiy, Option.getD_some] at hxy
      have heq : infoy = infox := by
        rw [hxy, hinfoy] at hinfox
        exact Option.some.inj hinfox
      rw [← hlogx, ← hlogy, heq]
    have hsidmem : sid ∉ kept.map idOf := by
      intro hmem
      obtain ⟨l, hl, hidl⟩ := List.mem_map.mp hmem
      have hlr : l ∈ recips := (hmemDS l).mp (List.mem_of_mem_filter hl)
      have hlne : l ≠ sl := by simpa using List.of_mem_filter hl
      obtain ⟨i, hi⟩ := Option.isSome_iff_exists.mp (hknown l hlr)
      obtain ⟨info2, hinfo2, hlog2, _⟩ := hwf.1 l i hi
      rw [hidOf] at hidl
      simp only [hi, Option.getD_some] at hidl
      rw [hidl, hself] at hinfo2
      have : info = info2 := Option.some.inj hinfo2
      exact hlne (by rw [← hlog2, ← this])
    refine List.Nodup.append (hkeptnd.map_on hinj) (List.nodup_singleton _) ?_
    intro a ha hb
    rw [List.mem_singleton] at hb
    exact hsidmem (hb ▸ ha)
  · intro i
    constructor
    · intro hi
      rcases List.mem_append.mp hi with hleft | hright
      · obtain ⟨l, hl, hidl⟩ := List.mem_map.mp hleft
        right
        have hlr : l ∈ recips := (hmemDS l).mp (List.mem_of_mem_filter hl)
        have hlne : l ≠ sl := by simpa using List.of_mem_filter hl
        obtain ⟨j, hj⟩ := Option.isSome_iff_exists.mp (hknown l hlr)
        refine ⟨l, hlr, hlne, ?_⟩
        rw [hidOf] at hidl
        simp only [hj, Option.getD_some] at hidl
        rw [hj, hidl]
      · exact Or.inl (List.mem_singleton.mp hright)
    · intro h
      rcases h with hsender | ⟨l, hlr, hlne, hlook⟩
      · refine List.mem_append.mpr (Or.inr ?_)
        rw [hsender]
        exact List.mem_singleton_self _
      · refine List.mem_append.mpr (Or.inl ?_)
        refine List.mem_map.mpr ⟨l, ?_, ?_⟩
        · exact List.mem_filter.mpr ⟨(hmemDS l).mpr hlr, by simpa using hlne⟩
        · rw [hidOf]
          simp only [hlook, Option.getD_some]

theorem wStC_bij : LoginIdBij wStC := by
  constructor
  · intro l i h
    rw [wStC] at h
    rw [look_cons] at h
    by_cases h1 : "alice".data = l
    · rw [if_pos h1] at h
      have h2 : (1 : Nat) = i := Option.some.inj h
      refine ⟨wInfoA, ?_, ?_, ?_⟩
      · rw [← h2]; decide
      · rw [← h1]; decide
      · rw [← h2]; decide
    · rw [if_neg h1, look_cons] at h
      by_cases h2 : "bob".data = l
      · rw [if_pos h2] at h
        have h3 : (2 : Nat) = i := Option.some.inj h
        refine ⟨wInfoB, ?_, ?_, ?_⟩
        · rw [← h3]; decide
        · rw [← h2]; decide
        · rw [← h3]; decide
      · rw [if_neg h2] at h
        simp [look] at h
  · intro i info h
    rw [wStC] at h
    rw [look_cons] at h
    by_cases h1 : (1 : Nat) = i
    · rw [if_pos h1] at h
      have h2 : wInfoA = info := Option.some.inj h
      rw [← h2, ← h1]
      decide
    · rw [if_neg h1, look_cons] at h
      by_cases h2 : (2 : Nat) = i
      · rw [if_pos h2] at h
        have h3 : wInfoB = info := Option.some.inj h
        rw [← h3, ← h2]
        decide
      · rw [if_neg h2] at h
        simp [look] at h

theorem claim_C3_witness :
    (∀ l ∈ ["bob".data, "alice".data, "alice".data], (look l wStC.login_id).isSome) ∧
    ∃ ids : List Nat,
      handle_private_message "12:00".data wStC wInfoA "hi".data
          ["bob".data, "alice".data, "alice".data] =
        some (ids.map (fun i => ChatOut.send i (privateMsg "12:00".data wInfoA.user.login
          ["bob".data, "alice".data, "alice".data] "hi".data))) ∧
      ids.Nodup ∧
      (∀ i, i ∈ ids ↔ (i = wInfoA.user.id ∨
        ∃ l, l ∈ ["bob".data, "alice".data, "alice".data] ∧ l ≠ wInfoA.user.login ∧
          look l wStC.login_id = some i)) :=
  ⟨by decide,
   claim_C3 "12:00".data wStC wInfoA "hi".data ["bob".data, "alice".data, "alice".data]
     wStC_bij rfl (by decide) (by decide) (by decide) (by decide)⟩

/-- C1 fails on the code: `handle_drop_user` removes the participant but
never removes the `login_id` entry, so after alice disconnects her login
still maps to her dead id — the map is not a bijection over the connected
users — and a subsequent `+alice hi` from bob reaches the
`expect("ChatService user is missing")` panic (modelled by `none`). -/
theorem claim_C1 :
    chat_run "12:00".data ⟨[], []⟩ wEvents = some wStBad ∧
    look "alice".data wStBad.login_id = some 1 ∧
    look 1 wStBad.users = none ∧
    ¬ LoginIdBij wStBad ∧
    handle_new_message "12:00".data wStBad 2 "+alice hi".data = none := by
  refine ⟨by decide, by decide, by decide, ?_, ?_⟩
  · intro hbij
    obtain ⟨info, hinfo, _, _⟩ := hbij.1 "alice".data 1 (by decide)
    rw [show look 1 wStBad.users = none from by decide] at hinfo
    exact Option.noConfusion hinfo
  · have hparse : Message.parse "+alice hi".data =
        some (Message.Private "hi".data ["alice".data]) := by
      simp +decide [Message.parse, Message.parse_private, Message.privLoop,
        Message.first_char, Message.remove_first_char, wordsOff, isWs]
    simp only [handle_new_message, hparse,
      show look 2 wStBad.users = some ⟨⟨2, "bob".data⟩, MuteLevel.AllowAll⟩ from by decide]
    decide

end Chat

namespace Login

/-- C5: the per-connection authentication state machine transitions on
`NewMessage` exactly as specified, in both the `Initial` and the
`GotLogin` states, for online / offline-matching / offline-mismatched /
unknown logins, emitting `NewUser` exactly on the two authentication
successes. -/
theorem claim_C5 (st : LoginSt) (id : Nat) (data : Str) :
    (look id st.auth_state = some AuthState.Initial →
      (∀ pw, look data st.login_state = some (LoginState.Online pw) →
        handle_new_message st id data =
          ({ st with auth_state := upd id AuthState.Initial st.auth_state },
           [LoginOut.send id (alreadyOnlineMsg data)])) ∧
      (∀ pw, look data st.login_state = some (LoginState.Offline pw) →
        handle_new_message st id data =
          ({ st with auth_state := upd id (AuthState.GotLogin data) st.auth_state },
           [LoginOut.send id (passwordPrompt data)])) ∧
      (look data st.login_state = none →
        handle_new_message st id data =
          ({ st with auth_state := upd id (AuthState.GotLogin data) st.auth_state },
           [LoginOut.send id (creatingPrompt data)]))) ∧
    (∀ login, look id st.auth_state = some (AuthState.GotLogin login) →
      (∀ pw, look login st.login_state = some (LoginState.Online pw) →
        handle_new_message st id data =
          ({ auth_state := upd id AuthState.Initial st.auth_state,
             login_state := upd login (LoginState.Online pw) st.login_state },
           [LoginOut.send id (alreadyOnlineMsg login)])) ∧
      (∀ pw, look login st.login_state = some (LoginState.Offline pw) → data = pw →
        handle_new_message st id data =
          ({ auth_state := upd id (AuthState.Ok ⟨id, login⟩) st.auth_state,
             login_state := upd login (LoginState.Online pw) st.login_state },
           [LoginOut.send id (welcomeBackMsg login),
            LoginOut.userEv (UserEvent.NewUser ⟨id, login⟩)])) ∧
      (∀ pw, look login st.login_state = some (LoginState.Offline pw) → data ≠ pw →
        handle_new_message st id data =
          ({ auth_state := upd id AuthState.Initial st.auth_state,
             login_state := upd login (LoginState.Offline pw) st.login_state },
           [LoginOut.send id incorrectPasswordMsg])) ∧
      (look login st.login_state = none →
        handle_new_message st id data =
          ({ auth_state := upd id (AuthState.Ok ⟨id, login⟩) st.auth_state,
             login_state := upd login (LoginState.Online data) st.login_state },
           [LoginOut.send id (passwordCreatedMsg login),
            LoginOut.userEv (UserEvent.NewUser ⟨id, login⟩)]))) := by
  constructor
  · intro hslot
    refine ⟨?_, ?_, ?_⟩
    · intro pw hl
      simp only [handle_new_message, hslot, hl]
    · intro pw hl
      simp only [handle_new_message, hslot, hl]
    · intro hl
      simp only [handle_new_message, hslot, hl]
  · intro login hslot
    refine ⟨?_, ?_, ?_, ?_⟩
    · intro pw hl
      simp only [handle_new_message, hslot, hl]
    · intro pw hl hdata
      simp only [handle_new_message, hslot, hl, if_pos hdata]
    · intro pw hl hdata
      simp only [handle_new_message, hslot, hl, if_neg hdata]
    · intro hl
      simp only [handle_new_message, hslot, hl]

theorem claim_C5_witness :
    (look 1 wStL.auth_state = some (AuthState.GotLogin "alice".data)) ∧
    (look "alice".data wStL.login_state = some (LoginState.Offline "pw".data)) ∧
    handle_new_message wStL 1 "pw".data =
      ({ auth_state := upd 1 (AuthState.Ok ⟨1, "alice".data⟩) wStL.auth_state,
         login_state := upd "alice".data (LoginState.Online "pw".data) wStL.login_state },
       [LoginOut.send 1 (welcomeBackMsg "alice".data),
        LoginOut.userEv (UserEvent.NewUser ⟨1, "alice".data⟩)]) :=
  ⟨rfl, rfl,
   (((claim_C5 wStL 1 "pw".data).2 "alice".data rfl).2.1 "pw".data rfl rfl)⟩

theorem look_upd_same {κ ν : Type} [DecidableEq κ] (k : κ) (v : ν) (m : List (κ × ν))
    (h : look k m = some v) : ∀ k2, look k2 (upd k v m) = look k2 m := by
  intro k2
  rw [look_upd]
  by_cases hk : k2 = k
  · rw [if_pos hk, hk, h]
  · rw [if_neg hk]

/-- `LoginInv` transports along states with equal `login_state` lookups
and equivalent authenticated slots. -/
theorem inv_of_equiv (st2 st : LoginSt)
    (hlog : ∀ l, look l st2.login_state = look l st.login_state)
    (hequiv : ∀ j u, look j st2.auth_state = some (AuthState.Ok u) ↔
      look j st.auth_state = some (AuthState.Ok u))
    (hinv : LoginInv st) : LoginInv st2 := by
  obtain ⟨h1, h2, h3⟩ := hinv
  refine ⟨?_, ?_, ?_⟩
  · intro l
    have hiso : isOnline st2 l ↔ isOnline st l := by
      rw [isOnline, isOnline, hlog l]
    rw [hiso, h1 l]
    constructor
    · rintro ⟨i, u, hu, hl⟩
      exact ⟨i, u, (hequiv i u).mpr hu, hl⟩
    · rintro ⟨i, u, hu, hl⟩
      exact ⟨i, u, (hequiv i u).mp hu, hl⟩
  · intro i u hu
    exact h2 i u ((hequiv i u).mp hu)
  · intro i j u v hu hv hl
    exact h3 i j u v ((hequiv i u).mp hu) ((hequiv j v).mp hv) hl

/-- Overwriting a non-authenticated slot with a non-authenticated state
leaves the set of authenticated slots unchanged. -/
theorem okSlots_upd_not_ok (m : List (Nat × AuthState)) (id : Nat) (s : AuthState)
    (hs : ∀ u, s ≠ AuthState.Ok u)
    (hold : ∀ u, look id m ≠ some (AuthState.Ok u)) :
    ∀ j u, look j (upd id s m) = some (AuthState.Ok u) ↔
      look j m = some (AuthState.Ok u) := by
  intro j u
  rw [look_upd]
  by_cases hj : j = id
  · rw [if_pos hj, hj]
    constructor
    · intro h
      exact absurd (Option.some.inj h) (hs u)
    · intro h
      exact absurd h (hold u)
  · rw [if_neg hj]

theorem inv_new_socket (st : LoginSt) (id : Nat) (hinv : LoginInv st)
    (h : ∀ u, look id st.auth_state ≠ some (AuthState.Ok u)) :
    LoginInv (handle_new_socket st id).1 := by
  exact inv_of_equiv _ st (fun l => rfl)
    (okSlots_upd_not_ok st.auth_state id AuthState.Initial
      (fun u hh => AuthState.noConfusion hh) h) hinv

/-- Authenticating a connection (both the `Offline`-with-matching-secret
arm and the account-creation arm) preserves the invariant, given that the
slot was not yet authenticated and the account is not online. -/
theorem inv_authenticate (st : LoginSt) (id : Nat) (login pw : Str)
    (hinv : LoginInv st)
    (hns : ∀ u, look id st.auth_state ≠ some (AuthState.Ok u))
    (hoff : ¬ isOnline st login) :
    LoginInv ⟨upd id (AuthState.Ok ⟨id, login⟩) st.auth_state,
              upd login (LoginState.Online pw) st.login_state⟩ := by
  obtain ⟨h1, h2, h3⟩ := hinv
  have hnoslot : ∀ j v, look j st.auth_state = some (AuthState.Ok v) → v.login ≠ login := by
    intro j v hv hlv
    exact hoff ((h1 login).mpr ⟨j, v, hv, hlv⟩)
  refine ⟨?_, ?_, ?_⟩
  · intro l
    constructor
    · rintro ⟨pw2, hpw2⟩
      rw [look_upd] at hpw2
      by_cases hll : l = login
      · subst hll
        exact ⟨id, ⟨id, l⟩, by rw [look_upd_self], rfl⟩
      · rw [if_neg hll] at hpw2
        obtain ⟨i, u, hu, hul⟩ := (h1 l).mp ⟨pw2, hpw2⟩
        have hine : i ≠ id := by
          intro he
          rw [he] at hu
          exact hns u hu
        exact ⟨i, u, by rw [look_upd_ne _ _ _ _ hine]; exact hu, hul⟩
    · rintro ⟨i, u, hu, hul⟩
      rw [look_upd] at hu
      by_cases hi : i = id
      · rw [if_pos hi] at hu
        have hueq : u = (⟨id, login⟩ : UserL) := by
          have h0 := Option.some.inj hu
          injection h0 with h0
          exact h0.symm
        rw [isOnline, look_upd, if_pos (by rw [← hul, hueq])]
        exact ⟨pw, rfl⟩
      · rw [if_neg hi] at hu
        have hul2 : u.login ≠ login := hnoslot i u hu
        rw [isOnline, look_upd, if_neg (by rw [← hul]; exact hul2)]
        exact (h1 l).mpr ⟨i, u, hu, hul⟩
  · intro i u hu
    rw [look_upd] at hu
    by_cases hi : i = id
    · rw [if_pos hi] at hu
      have hueq : u = (⟨id, login⟩ : UserL) := by
        have h0 := Option.some.inj hu
        injection h0 with h0
        exact h0.symm
      rw [hueq, hi]
    · rw [if_neg hi] at hu
      exact h2 i u hu
  · intro i j u v hu hv hlv
    rw [look_upd] at hu hv
    by_cases hi : i = id <;> by_cases hj : j = id
    · rw [hi, hj]
    · rw [if_pos hi] at hu
      rw [if_neg hj] at hv
      have hueq : u = (⟨id, login⟩ : UserL) := by
        have h0 := Option.some.inj hu
        injection h0 with h0
        exact h0.symm
      have hvl : v.login = login := by
        rw [← hlv, hueq]
      exact absurd hvl (hnoslot j v hv)
    · rw [if_neg hi] at hu
      rw [if_pos hj] at hv
      have hveq : v = (⟨id, login⟩ : UserL) := by
        have h0 := Option.some.inj hv
        injection h0 with h0
        exact h0.symm
      have hul : u.login = login := by
        rw [hlv, hveq]
      exact absurd hul (hnoslot i u hu)
    · rw [if_neg hi] at hu
      rw [if_neg hj] at hv
      exact h3 i j u v hu hv hlv

theorem inv_new_message (st : LoginSt) (id : Nat) (data : Str) (hinv : LoginInv st) :
    LoginInv (handle_new_message st id data).1 := by
  cases hslot : look id st.auth_state with
  | none =>
      simp only [handle_new_message, hslot]
      exact hinv
  | some s =>
      cases s with
      | Initial =>
          have hns : ∀ u, look id st.auth_state ≠ some (AuthState.Ok u) := by
            intro u hu
            rw [hslot] at hu
            exact AuthState.noConfusion (Option.some.inj hu)
          cases hl : look data st.login_state with
          | none =>
              simp only [handle_new_message, hslot, hl]
              exact inv_of_equiv _ st (fun l => rfl)
                (okSlots_upd_not_ok _ id _ (fun u hh => AuthState.noConfusion hh) hns) hinv
          | some ls =>
              cases ls with
              | Online pw =>
                  simp only [handle_new_message, hslot, hl]
                  exact inv_of_equiv _ st (fun l => rfl)
                    (okSlots_upd_not_ok _ id _ (fun u hh => AuthState.noConfusion hh) hns) hinv
              | Offline pw =>
                  simp only [handle_new_message, hslot, hl]
                  exact inv_of_equiv _ st (fun l => rfl)
                    (okSlots_upd_not_ok _ id _ (fun u hh => AuthState.noConfusion hh) hns) hinv
      | GotLogin login =>
          have hns : ∀ u, look id st.auth_state ≠ some (AuthState.Ok u) := by
            intro u hu
            rw [hslot] at hu
            exact AuthState.noConfusion (Option.some.inj hu)
          cases hl : look login st.login_state with
          | none =>
              simp only [handle_new_message, hslot, hl]
              exact inv_authenticate st id login data hinv hns
                (fun honl => by
                  obtain ⟨pw2, hpw2⟩ := honl
                  rw [hl] at hpw2
                  exact Option.noConfusion hpw2)
          | some ls =>
              cases ls with
              | Online pw =>
                  simp only [handle_new_message, hslot, hl]
                  exact inv_of_equiv _ st (look_upd_same login (LoginState.Online pw) _ hl)
                    (okSlots_upd_not_ok _ id _ (fun u hh => AuthState.noConfusion hh) hns) hinv
              | Offline pw =>
                  by_cases hdata : data = pw
                  · simp only [handle_new_message, hslot, hl, if_pos hdata]
                    exact inv_authenticate st id login pw hinv hns
                      (fun honl => by
                        obtain ⟨pw2, hpw2⟩ := honl
                        rw [hl] at hpw2
                        exact LoginState.noConfusion (Option.some.inj hpw2))
                  · simp only [handle_new_message, hslot, hl, if_neg hdata]
                    exact inv_of_equiv _ st (look_upd_same login (LoginState.Offline pw) _ hl)
                      (okSlots_upd_not_ok _ id _ (fun u hh => AuthState.noConfusion hh) hns) hinv
      | Ok user =>
          simp only [handle_new_message, hslot]
          refine inv_of_equiv _ st (fun l => rfl) ?_ hinv
          intro j u
          rw [look_upd]
          by_cases hj : j = id
          · rw [if_pos hj, hj, hslot]
          · rw [if_neg hj]

theorem inv_closed (st : LoginSt) (id : Nat) (hinv : LoginInv st) :
    ∃ st2 outs, handle_closed_socket st id = some (st2, outs) ∧ LoginInv st2 := by
  obtain ⟨h1, h2, h3⟩ := hinv
  have hremEquiv : (∀ u, look id st.auth_state ≠ some (AuthState.Ok u)) →
      ∀ j u, look j (rem id st.auth_state) = some (AuthState.Ok u) ↔
        look j st.auth_state = some (AuthState.Ok u) := by
    intro hno j u
    rw [look_rem]
    by_cases hj : j = id
    · rw [if_pos hj, hj]
      constructor
      · intro h
        exact Option.noConfusion h
      · intro h
        exact absurd h (hno u)
    · rw [if_neg hj]
  cases hslot : look id st.auth_state with
  | none =>
      exact ⟨st, [], by simp only [handle_closed_socket, hslot], h1, h2, h3⟩
  | some s =>
      cases s with
      | Initial =>
          refine ⟨{ st with auth_state := rem id st.auth_state }, [],
            by simp only [handle_closed_socket, hslot], ?_⟩
          refine inv_of_equiv _ st (fun l => rfl) ?_ ⟨h1, h2, h3⟩
          refine hremEquiv ?_
          intro u hu
          rw [hslot] at hu
          exact AuthState.noConfusion (Option.some.inj hu)
      | GotLogin lg =>
          refine ⟨{ st with auth_state := rem id st.auth_state }, [],
            by simp only [handle_closed_socket, hslot], ?_⟩
          refine inv_of_equiv _ st (fun l => rfl) ?_ ⟨h1, h2, h3⟩
          refine hremEquiv ?_
          intro u hu
          rw [hslot] at hu
          exact AuthState.noConfusion (Option.some.inj hu)
      | Ok u =>
          obtain ⟨pw, hpw⟩ := (h1 u.login).mpr ⟨id, u, hslot, rfl⟩
          refine ⟨⟨rem id st.auth_state, upd u.login (LoginState.Offline pw) st.login_state⟩,
            [LoginOut.userEv (UserEvent.DropUser u.id)],
            by simp only [handle_closed_socket, hslot, hpw], ?_, ?_, ?_⟩
          · intro l
            constructor
            · rintro ⟨pw2, hpw2⟩
              rw [look_upd] at hpw2
              by_cases hll : l = u.login
              · rw [if_pos hll] at hpw2
                exact LoginState.noConfusion (Option.some.inj hpw2)
              · rw [if_neg hll] at hpw2
                obtain ⟨i, v, hv, hvl⟩ := (h1 l).mp ⟨pw2, hpw2⟩
                have hine : i ≠ id := by
                  intro he
                  rw [he, hslot] at hv
                  simp only [Option.some.injEq, AuthState.Ok.injEq] at hv
                  exact hll (by rw [← hvl, ← hv])
                exact ⟨i, v, by rw [look_rem, if_neg hine]; exact hv, hvl⟩
            · rintro ⟨i, v, hv, hvl⟩
              rw [look_rem] at hv
              by_cases hi : i = id
              · rw [if_pos hi] at hv
                exact Option.noConfusion hv
              · rw [if_neg hi] at hv
                have hvlne : v.login ≠ u.login := by
                  intro he
                  exact hi (h3 i id v u hv hslot he)
                rw [isOnline, look_upd, if_neg (by rw [← hvl]; exact hvlne)]
                exact (h1 l).mpr ⟨i, v, hv, hvl⟩
          · intro i v hv
            rw [look_rem] at hv
            by_cases hi : i = id
            · rw [if_pos hi] at hv
              exact Option.noConfusion hv
            · rw [if_neg hi] at hv
              exact h2 i v hv
          · intro i j v w hv hw hl
            rw [look_rem] at hv hw
            by_cases hi : i = id
            · rw [if_pos hi] at hv
              exact Option.noConfusion hv
            · rw [if_neg hi] at hv
              by_cases hj : j = id
              · rw [if_pos hj] at hw
                exact Option.noConfusion hw
              · rw [if_neg hj] at hw
                exact h3 i j v w hv hw hl

/-- C6: `LoginInv` (an account is `Online` iff exactly one auth slot is
authenticated with its login) is preserved by every handled event (under
the socket protocol guarantee that a `NewSocket` id has no live
authenticated slot), and no handler panics; closing an authenticated
connection moves the account `Online → Offline` with the same stored
secret and emits exactly one `DropUser(id)`, while closing any other
connection drops the slot, changes no account, and emits nothing. -/
theorem claim_C6 (st : LoginSt) (ev : SocketEvent) (hinv : LoginInv st)
    (hns : ∀ id, ev = SocketEvent.NewSocket id →
      ∀ u, look id st.auth_state ≠ some (AuthState.Ok u)) :
    (∃ st2 outs, login_step st ev = some (st2, outs) ∧ LoginInv st2) ∧
    (∀ id, ev = SocketEvent.ClosedSocket id →
      (∀ u, look id st.auth_state = some (AuthState.Ok u) →
        ∃ pw st2, login_step st ev =
            some (st2, [LoginOut.userEv (UserEvent.DropUser u.id)]) ∧
          look u.login st.login_state = some (LoginState.Online pw) ∧
          look u.login st2.login_state = some (LoginState.Offline pw) ∧
          (∀ l, l ≠ u.login → look l st2.login_state = look l st.login_state) ∧
          look id st2.auth_state = none ∧
          (∀ j, j ≠ id → look j st2.auth_state = look j st.auth_state)) ∧
      ((∀ u, look id st.auth_state ≠ some (AuthState.Ok u)) →
        ∃ st2, login_step st ev = some (st2, []) ∧
          st2.login_state = st.login_state ∧
          look id st2.auth_state = none ∧
          (∀ j, j ≠ id → look j st2.auth_state = look j st.auth_state))) := by
  constructor
  · cases ev with
    | NewSocket id =>
        exact ⟨_, _, rfl, inv_new_socket st id hinv (hns id rfl)⟩
    | NewMessage id data =>
        exact ⟨_, _, rfl, inv_new_message st id data hinv⟩
    | ClosedSocket id =>
        obtain ⟨st2, outs, hstep, hinv2⟩ := inv_closed st id hinv
        exact ⟨st2, outs, hstep, hinv2⟩
  · intro id hev
    subst hev
    constructor
    · intro u hu
      obtain ⟨pw, hpw⟩ := (hinv.1 u.login).mpr ⟨id, u, hu, rfl⟩
      refine ⟨pw, ⟨rem id st.auth_state,
        upd u.login (LoginState.Offline pw) st.login_state⟩, ?_, hpw, ?_, ?_, ?_, ?_⟩
      · simp only [login_step, handle_closed_socket, hu, hpw]
      · exact look_upd_self ..
      · intro l hl
        exact look_upd_ne _ _ _ _ hl
      · exact look_rem_self ..
      · intro j hj
        exact look_rem_ne _ _ _ hj
    · intro hnotok
      cases hslot : look id st.auth_state with
      | none =>
          refine ⟨st, ?_, rfl, hslot, fun j hj => rfl⟩
          simp only [login_step, handle_closed_socket, hslot]
      | some s =>
          cases s with
          | Initial =>
              refine ⟨{ st with auth_state := rem id st.auth_state }, ?_, rfl, ?_, ?_⟩
              · simp only [login_step, handle_closed_socket, hslot]
              · exact look_rem_self ..
              · intro j hj
                exact look_rem_ne _ _ _ hj
          | GotLogin lg =>
              refine ⟨{ st with auth_state := rem id st.auth_state }, ?_, rfl, ?_, ?_⟩
              · simp only [login_step, handle_closed_socket, hslot]
              · exact look_rem_self ..
              · intro j hj
                exact look_rem_ne _ _ _ hj
          | Ok u =>
              exact absurd hslot (hnotok u)

theorem wStL2_inv : LoginInv wStL2 := by
  refine ⟨?_, ?_, ?_⟩
  · intro l
    constructor
    · rintro ⟨pw, hpw⟩
      rw [wStL2] at hpw
      rw [look_cons] at hpw
      by_cases h1 : "alice".data = l
      · refine ⟨1, ⟨1, "alice".data⟩, by decide, h1⟩
      · rw [if_neg h1] at hpw
        simp [look] at hpw
    · rintro ⟨i, u, hu, hl⟩
      rw [wStL2] at hu
      rw [look_cons] at hu
      by_cases h1 : (1 : Nat) = i
      · rw [if_pos h1] at hu
        simp only [Option.some.injEq, AuthState.Ok.injEq] at hu
        refine ⟨"pw".data, ?_⟩
        rw [← hl, ← hu]
        decide
      · rw [if_neg h1] at hu
        simp [look] at hu
  · intro i u hu
    rw [wStL2] at hu
    rw [look_cons] at hu
    by_cases h1 : (1 : Nat) = i
    · rw [if_pos h1] at hu
      simp only [Option.some.injEq, AuthState.Ok.injEq] at hu
      rw [← hu, ← h1]
    · rw [if_neg h1] at hu
      simp [look] at hu
  · intro i j u v hu hv hl
    rw [wStL2] at hu hv
    rw [look_cons] at hu hv
    by_cases h1 : (1 : Nat) = i
    · by_cases h2 : (1 : Nat) = j
      · rw [← h1, ← h2]
      · rw [if_neg h2] at hv
        simp [look] at hv
    · rw [if_neg h1] at hu
      simp [look] at hu

theorem claim_C6_witness :
    LoginInv wStL2 ∧
    (∃ st2 outs, login_step wStL2 (SocketEvent.ClosedSocket 1) = some (st2, outs) ∧
      LoginInv st2) ∧
    (∃ pw st2, login_step wStL2 (SocketEvent.ClosedSocket 1) =
        some (st2, [LoginOut.userEv (UserEvent.DropUser 1)]) ∧
      look "alice".data wStL2.login_state = some (LoginState.Online pw) ∧
      look "alice".data st2.login_state = some (LoginState.Offline pw) ∧
      (∀ l, l ≠ "alice".data → look l st2.login_state = look l wStL2.login_state) ∧
      look 1 st2.auth_state = none ∧
      (∀ j, j ≠ 1 → look j st2.auth_state = look j wStL2.auth_state)) := by
  have h := claim_C6 wStL2 (SocketEvent.ClosedSocket 1) wStL2_inv
    (fun id hid => SocketEvent.noConfusion hid)
  exact ⟨wStL2_inv, h.1,
    (h.2 1 rfl).1 ⟨1, "alice".data⟩ (by decide)⟩

end Login

namespace Socket

theorem claim_C7_counterexample :
    (sock_run [] wTrace).2 =
      [SockEv.NewSocket 0, SockEv.ClosedSocket 0, SockEv.NewMessage 0 "hi".data] ∧
    ¬ NoEventAfterClose 0 (sock_run [] wTrace).2 := by
  refine ⟨by decide, ?_⟩
  intro h
  exact h [SockEv.NewSocket 0] [SockEv.NewMessage 0 "hi".data] (by decide)
    (SockEv.NewMessage 0 "hi".data) (List.mem_singleton_self _) rfl

theorem split_cases {α : Type} : ∀ (l1 l2 pre post : List α) (a : α),
    l1 ++ l2 = pre ++ a :: post →
    (∃ post2, l1 = pre ++ a :: post2 ∧ post = post2 ++ l2) ∨
    (∃ pre2, pre = l1 ++ pre2 ∧ l2 = pre2 ++ a :: post) := by
  intro l1
  induction l1 with
  | nil =>
      intro l2 pre post a h
      exact Or.inr ⟨pre, rfl, h⟩
  | cons x l1 ih =>
      intro l2 pre post a h
      cases pre with
      | nil =>
          simp only [List.cons_append, List.nil_append] at h
          obtain ⟨hx, hrest⟩ := List.cons.injEq .. ▸ h
          refine Or.inl ⟨l1, ?_, hrest.symm⟩
          rw [hx]
          rfl
      | cons p pre2 =>
          simp only [List.cons_append] at h
          obtain ⟨hx, hrest⟩ := List.cons.injEq .. ▸ h
          rcases ih l2 pre2 post a hrest with ⟨post2, h1, h2⟩ | ⟨pre3, h1, h2⟩
          · refine Or.inl ⟨post2, ?_, h2⟩
            rw [hx, h1]
            rfl
          · refine Or.inr ⟨pre3, ?_, h2⟩
            rw [hx, h1]
            rfl

theorem noNSCS_append {id : Nat} {l1 l2 : List SockEv}
    (h1 : noNSCS id l1) (h2 : noNSCS id l2) : noNSCS id (l1 ++ l2) := by
  intro e he
  rcases List.mem_append.mp he with h | h
  · exact h1 e h
  · exact h2 e h

theorem countNS_eq_zero {id : Nat} {evs : List SockEv} (h : noNSCS id evs) :
    evs.countP (fun e => e == SockEv.NewSocket id) = 0 := by
  rw [List.countP_eq_zero]
  intro e he
  simp only [beq_iff_eq]
  exact (h e he).1

theorem step_evId (ws : List Nat) (e : SockIn) :
    ∀ ev ∈ (sock_step ws e).2, evId ev = inpId e := by
  have hclose : ∀ i, ∀ ev ∈ (close_connection ws i).2, evId ev = i := by
    intro i ev hev
    rw [close_connection] at hev
    by_cases hm : i ∈ ws
    · rw [if_pos hm] at hev
      rw [List.mem_singleton.mp hev]
      rfl
    · rw [if_neg hm] at hev
      exact absurd hev (List.not_mem_nil _)
  cases e with
  | conn i =>
      intro ev hev
      rw [List.mem_singleton.mp hev]
      rfl
  | readOk i d =>
      intro ev hev
      rw [List.mem_singleton.mp hev]
      rfl
  | readClosed i => exact hclose i
  | readUtf8Err i => exact hclose i
  | readIoErr i => exact hclose i
  | reqSend i m f =>
      intro ev hev
      rw [sock_step] at hev
      by_cases hm : i ∈ ws
      · rw [if_pos hm] at hev
        cases f with
        | true => exact hclose i ev hev
        | false => exact absurd hev (List.not_mem_nil _)
      · rw [if_neg hm] at hev
        exact absurd hev (List.not_mem_nil _)
  | reqClose i =>
      intro ev hev
      rw [sock_step] at hev
      by_cases hm : i ∈ ws
      · rw [if_pos hm] at hev
        exact hclose i ev hev
      · rw [if_neg hm] at hev
        exact absurd hev (List.not_mem_nil _)

theorem mem_filter_ne {j : Nat} {ws : List Nat} {id : Nat} :
    id ∈ ws.filter (fun x => decide (x ≠ j)) ↔ (id ∈ ws ∧ id ≠ j) := by
  rw [List.mem_filter]
  simp

theorem close_keeps (ws : List Nat) {j id : Nat} (hne : id ≠ j) :
    (id ∈ (close_connection ws j).1 ↔ id ∈ ws) ∧
    noNSCS id (close_connection ws j).2 := by
  rw [close_connection]
  by_cases hm : j ∈ ws
  · rw [if_pos hm]
    refine ⟨?_, ?_⟩
    · simp only [mem_filter_ne]
      constructor
      · exact fun h => h.1
      · exact fun h => ⟨h, hne⟩
    · intro e he
      rw [List.mem_singleton.mp he]
      exact ⟨fun h => SockEv.noConfusion h,
             fun h => hne (SockEv.ClosedSocket.injEq .. ▸ h).symm⟩
  · rw [if_neg hm]
    exact ⟨Iff.rfl, fun e he => absurd he (List.not_mem_nil _)⟩

theorem stepA (ws : List Nat) (id : Nat) (e : SockIn)
    (hws : id ∉ ws) (hne : e ≠ SockIn.conn id) :
    noNSCS id (sock_step ws e).2 ∧ id ∉ (sock_step ws e).1 := by
  cases e with
  | conn j =>
      have hj : j ≠ id := fun h => hne (by rw [h])
      refine ⟨?_, ?_⟩
      · intro ev hev
        rw [List.mem_singleton.mp hev]
        exact ⟨fun h => hj (SockEv.NewSocket.injEq .. ▸ h),
               fun h => SockEv.noConfusion h⟩
      · intro hmem
        rcases List.mem_cons.mp hmem with h | h
        · exact hj h.symm
        · exact hws (mem_filter_ne.mp h).1
  | readOk j d =>
      refine ⟨?_, hws⟩
      intro ev hev
      rw [List.mem_singleton.mp hev]
      exact ⟨fun h => SockEv.noConfusion h, fun h => SockEv.noConfusion h⟩
  | readClosed j =>
      by_cases hj : id = j
      · subst hj
        rw [sock_step, close_connection, if_neg hws]
        exact ⟨fun e he => absurd he (List.not_mem_nil _), hws⟩
      · obtain ⟨hiff, hno⟩ := close_keeps ws hj
        exact ⟨hno, fun h => hws (hiff.mp h)⟩
  | readUtf8Err j =>
      by_cases hj : id = j
      · subst hj
        rw [sock_step, close_connection, if_neg hws]
        exact ⟨fun e he => absurd he (List.not_mem_nil _), hws⟩
      · obtain ⟨hiff, hno⟩ := close_keeps ws hj
        exact ⟨hno, fun h => hws (hiff.mp h)⟩
  | readIoErr j =>
      by_cases hj : id = j
      · subst hj
        rw [sock_step, close_connection, if_neg hws]
        exact ⟨fun e he => absurd he (List.not_mem_nil _), hws⟩
      · obtain ⟨hiff, hno⟩ := close_keeps ws hj
        exact ⟨hno, fun h => hws (hiff.mp h)⟩
  | reqSend j m f =>
      by_cases hm : j ∈ ws
      · have hj : id ≠ j := fun h => hws (h ▸ hm)
        rw [sock_step, if_pos hm]
        cases f with
        | true =>
            obtain ⟨hiff, hno⟩ := close_keeps ws hj
            exact ⟨hno, fun h => hws (hiff.mp h)⟩
        | false =>
            exact ⟨fun e he => absurd he (List.not_mem_nil _), hws⟩
      · rw [sock_step, if_neg hm]
        exact ⟨fun e he => absurd he (List.not_mem_nil _), hws⟩
  | reqClose j =>
      by_cases hm : j ∈ ws
      · have hj : id ≠ j := fun h => hws (h ▸ hm)
        rw [sock_step, if_pos hm]
        obtain ⟨hiff, hno⟩ := close_keeps ws hj
        exact ⟨hno, fun h => hws (hiff.mp h)⟩
      · rw [sock_step, if_neg hm]
        exact ⟨fun e he => absurd he (List.not_mem_nil _), hws⟩

theorem stepB (ws : List Nat) (id : Nat) (e : SockIn)
    (hws : id ∈ ws) (hne : e ≠ SockIn.conn id) :
    (noNSCS id (sock_step ws e).2 ∧ id ∈ (sock_step ws e).1) ∨
    ((sock_step ws e).2 = [SockEv.ClosedSocket id] ∧ id ∉ (sock_step ws e).1) := by
  have hcloseid : close_connection ws id =
      (ws.filter (fun j => decide (j ≠ id)), [SockEv.ClosedSocket id]) := by
    rw [close_connection, if_pos hws]
  have hselfout : id ∉ ws.filter (fun j => decide (j ≠ id)) := by
    intro h
    exact (mem_filter_ne.mp h).2 rfl
  cases e with
  | conn j =>
      have hj : j ≠ id := fun h => hne (by rw [h])
      refine Or.inl ⟨?_, ?_⟩
      · intro ev hev
        rw [List.mem_singleton.mp hev]
        exact ⟨fun h => hj (SockEv.NewSocket.injEq .. ▸ h),
               fun h => SockEv.noConfusion h⟩
      · exact List.mem_cons_of_mem _ (mem_filter_ne.mpr ⟨hws, fun h => hj h.symm⟩)
  | readOk j d =>
      refine Or.inl ⟨?_, hws⟩
      intro ev hev
      rw [List.mem_singleton.mp hev]
      exact ⟨fun h => SockEv.noConfusion h, fun h => SockEv.noConfusion h⟩
  | readClosed j =>
      by_cases hj : j = id
      · subst hj
        rw [sock_step, hcloseid]
        exact Or.inr ⟨rfl, hselfout⟩
      · obtain ⟨hiff, hno⟩ := close_keeps ws (fun h => hj h.symm)
        exact Or.inl ⟨hno, hiff.mpr hws⟩
  | readUtf8Err j =>
      by_cases hj : j = id
      · subst hj
        rw [sock_step, hcloseid]
        exact Or.inr ⟨rfl, hselfout⟩
      · obtain ⟨hiff, hno⟩ := close_keeps ws (fun h => hj h.symm)
        exact Or.inl ⟨hno, hiff.mpr hws⟩
  | readIoErr j =>
      by_cases hj : j = id
      · subst hj
        rw [sock_step, hcloseid]
        exact Or.inr ⟨rfl, hselfout⟩
      · obtain ⟨hiff, hno⟩ := close_keeps ws (fun h => hj h.symm)
        exact Or.inl ⟨hno, hiff.mpr hws⟩
  | reqSend j m f =>
      by_cases hm : j ∈ ws
      · rw [sock_step, if_pos hm]
        cases f with
        | true =>
            by_cases hj : j = id
            · subst hj
              rw [hcloseid]
              exact Or.inr ⟨rfl, hselfout⟩
            · obtain ⟨hiff, hno⟩ := close_keeps ws (fun h => hj h.symm)
              exact Or.inl ⟨hno, hiff.mpr hws⟩
        | false =>
            exact Or.inl ⟨fun e he => absurd he (List.not_mem_nil _), hws⟩
      · rw [sock_step, if_neg hm]
        exact Or.inl ⟨fun e he => absurd he (List.not_mem_nil _), hws⟩
  | reqClose j =>
      by_cases hm : j ∈ ws
      · rw [sock_step, if_pos hm]
        by_cases hj : j = id
        · subst hj
          rw [hcloseid]
          exact Or.inr ⟨rfl, hselfout⟩
        · obtain ⟨hiff, hno⟩ := close_keeps ws (fun h => hj h.symm)
          exact Or.inl ⟨hno, hiff.mpr hws⟩
      · rw [sock_step, if_neg hm]
        exact Or.inl ⟨fun e he => absurd he (List.not_mem_nil _), hws⟩

theorem sock_run_cons (ws : List Nat) (x : SockIn) (t : List SockIn) :
    sock_run ws (x :: t) =
      ((sock_run (sock_step ws x).1 t).1,
       (sock_step ws x).2 ++ (sock_run (sock_step ws x).1 t).2) := rfl

theorem countP_head_ne {x : SockIn} {t : List SockIn} {id : Nat}
    (hx : x ≠ SockIn.conn id) :
    (x :: t).countP (fun e => e == SockIn.conn id) =
      t.countP (fun e => e == SockIn.conn id) := by
  rw [List.countP_cons]
  simp [hx]

/-- After a connection has closed (or before it exists), a `conn`-free
trace emits no `NewSocket`/`ClosedSocket` for it. -/
theorem runA (id : Nat) : ∀ (t : List SockIn) (ws : List Nat),
    id ∉ ws → t.countP (fun e => e == SockIn.conn id) = 0 →
    noNSCS id (sock_run ws t).2 := by
  intro t
  induction t with
  | nil =>
      intro ws _ _ e he
      exact absurd he (List.not_mem_nil _)
  | cons x t ih =>
      intro ws hws hcount
      have hxne : x ≠ SockIn.conn id := by
        intro hx
        rw [List.countP_cons, hx] at hcount
        simp at hcount
      rw [countP_head_ne hxne] at hcount
      obtain ⟨hno1, hout⟩ := stepA ws id x hws hxne
      rw [sock_run_cons]
      exact noNSCS_append hno1 (ih _ hout hcount)

/-- While a connection is open, a `conn`-free trace emits no `NewSocket`
for it, at most one `ClosedSocket`, and after that `ClosedSocket` no
`NewSocket`/`ClosedSocket`. -/
theorem runB (id : Nat) : ∀ (t : List SockIn) (ws : List Nat),
    id ∈ ws → t.countP (fun e => e == SockIn.conn id) = 0 →
    (sock_run ws t).2.countP (fun e => e == SockEv.NewSocket id) = 0 ∧
    (∀ pre post, (sock_run ws t).2 = pre ++ SockEv.ClosedSocket id :: post →
      noNSCS id post) := by
  intro t
  induction t with
  | nil =>
      intro ws _ _
      refine ⟨rfl, ?_⟩
      intro pre post h
      rw [sock_run] at h
      exact absurd h.symm (List.append_ne_nil_of_right_ne_nil pre (List.cons_ne_nil _ _))
  | cons x t ih =>
      intro ws hws hcount
      have hxne : x ≠ SockIn.conn id := by
        intro hx
        rw [List.countP_cons, hx] at hcount
        simp at hcount
      rw [countP_head_ne hxne] at hcount
      rw [sock_run_cons]
      rcases stepB ws id x hws hxne with ⟨hno1, hin⟩ | ⟨hevs, hout⟩
      · obtain ⟨ihc, ihs⟩ := ih _ hin hcount
        refine ⟨?_, ?_⟩
        · rw [List.countP_append, countNS_eq_zero hno1, ihc]
        · intro pre post h
          rcases split_cases _ _ _ _ _ h with ⟨post2, h1, _⟩ | ⟨pre2, _, h2⟩
          · have hmem : SockEv.ClosedSocket id ∈ (sock_step ws x).2 := by
              rw [h1]
              exact List.mem_append_right _ (List.mem_cons_self _ _)
            exact absurd rfl ((hno1 _ hmem).2)
          · exact ihs pre2 post h2
      · have hrest : noNSCS id (sock_run (sock_step ws x).1 t).2 := runA id t _ hout hcount
        refine ⟨?_, ?_⟩
        · rw [List.countP_append, hevs, countNS_eq_zero hrest]
          simp
        · intro pre post h
          rw [hevs] at h
          rcases split_cases _ _ _ _ _ h with ⟨post2, h1, h2⟩ | ⟨pre2, _, h2⟩
          · cases pre with
            | nil =>
                simp only [List.nil_append] at h1
                obtain ⟨_, hpost2⟩ := List.cons.injEq .. ▸ h1
                rw [h2, ← hpost2]
                exact hrest
            | cons a pre2 =>
                simp only [List.cons_append] at h1
                obtain ⟨_, hrest2⟩ := List.cons.injEq .. ▸ h1
                exact absurd hrest2.symm (List.append_ne_nil_of_right_ne_nil pre2
                  (List.cons_ne_nil _ _))
          · have hmem : SockEv.ClosedSocket id ∈ (sock_run (sock_step ws x).1 t).2 := by
              rw [h2]
              exact List.mem_append_right _ (List.mem_cons_self _ _)
            exact absurd rfl ((hrest _ hmem).2)

/-- C7 (amended): starting with no writer for `id`, under a trace with at
most one accept for `id` in which every read result or request for `id`
follows the accept, the service emits `NewSocket(id)` exactly once per
accept, every other event for `id` is preceded by the `NewSocket(id)`, and
after a `ClosedSocket(id)` it never emits `NewSocket(id)` or
`ClosedSocket(id)` again — but a `NewMessage(id, ·)` from a read result
enqueued before the close may still follow (see the counterexample). -/
theorem claim_C7 (t : List SockIn) (id : Nat)
    (hcount : t.countP (fun e => e == SockIn.conn id) ≤ 1)
    (hval : ∀ t1 e t2, t = t1 ++ e :: t2 → inpId e = id → e ≠ SockIn.conn id →
      SockIn.conn id ∈ t1) :
    ((sock_run [] t).2.countP (fun e => e == SockEv.NewSocket id) =
      t.countP (fun e => e == SockIn.conn id)) ∧
    (∀ pre e post, (sock_run [] t).2 = pre ++ e :: post → evId e = id →
      e ≠ SockEv.NewSocket id → SockEv.NewSocket id ∈ pre) ∧
    (∀ pre post, (sock_run [] t).2 = pre ++ SockEv.ClosedSocket id :: post →
      noNSCS id post) := by
  have main : ∀ (t : List SockIn) (ws : List Nat),
      id ∉ ws →
      t.countP (fun e => e == SockIn.conn id) ≤ 1 →
      (∀ t1 e t2, t = t1 ++ e :: t2 → inpId e = id → e ≠ SockIn.conn id →
        SockIn.conn id ∈ t1) →
      ((sock_run ws t).2.countP (fun e => e == SockEv.NewSocket id) =
        t.countP (fun e => e == SockIn.conn id)) ∧
      (∀ pre e post, (sock_run ws t).2 = pre ++ e :: post → evId e = id →
        e ≠ SockEv.NewSocket id → SockEv.NewSocket id ∈ pre) ∧
      (∀ pre post, (sock_run ws t).2 = pre ++ SockEv.ClosedSocket id :: post →
        noNSCS id post) := by
    intro t
    induction t with
    | nil =>
        intro ws _ _ _
        refine ⟨rfl, ?_, ?_⟩
        · intro pre e post h
          rw [sock_run] at h
          exact absurd h.symm
            (List.append_ne_nil_of_right_ne_nil pre (List.cons_ne_nil _ _))
        · intro pre post h
          rw [sock_run] at h
          exact absurd h.symm
            (List.append_ne_nil_of_right_ne_nil pre (List.cons_ne_nil _ _))
    | cons x t ih =>
        intro ws hws hcount hval
        by_cases hx : x = SockIn.conn id
        · subst hx
          rw [List.countP_cons] at hcount
          simp only [beq_self_eq_true, if_true] at hcount
          have hc0 : t.countP (fun e => e == SockIn.conn id) = 0 := by omega
          have hstep : sock_step ws (SockIn.conn id) =
              (id :: ws.filter (fun j => decide (j ≠ id)), [SockEv.NewSocket id]) := rfl
          have hin : id ∈ (sock_step ws (SockIn.conn id)).1 := by
            rw [hstep]
            exact List.mem_cons_self _ _
          obtain ⟨ihc, ihs⟩ := runB id t _ hin hc0
          rw [sock_run_cons]
          refine ⟨?_, ?_, ?_⟩
          · rw [List.countP_append, ihc, List.countP_cons, hstep]
            simp [hc0]
          · intro pre e post h heid hene
            rw [hstep] at h
            rcases split_cases _ _ _ _ _ h with ⟨post2, h1, _⟩ | ⟨pre2, h1, _⟩
            · cases pre with
              | nil =>
                  simp only [List.nil_append] at h1
                  obtain ⟨he, _⟩ := List.cons.injEq .. ▸ h1
                  exact absurd he.symm hene
              | cons a pre3 =>
                  simp only [List.cons_append] at h1
                  obtain ⟨_, hr⟩ := List.cons.injEq .. ▸ h1
                  exact absurd hr.symm (List.append_ne_nil_of_right_ne_nil pre3
                    (List.cons_ne_nil _ _))
            · rw [h1]
              exact List.mem_append_left _ (List.mem_cons_self _ _)
          · intro pre post h
            rw [hstep] at h
            rcases split_cases _ _ _ _ _ h with ⟨post2, h1, _⟩ | ⟨pre2, _, h2⟩
            · cases pre with
              | nil =>
                  simp only [List.nil_append] at h1
                  obtain ⟨he, _⟩ := List.cons.injEq .. ▸ h1
                  exact absurd he (fun hh => SockEv.noConfusion hh)
              | cons a pre3 =>
                  simp only [List.cons_append] at h1
                  obtain ⟨_, hr⟩ := List.cons.injEq .. ▸ h1
                  exact absurd hr.symm (List.append_ne_nil_of_right_ne_nil pre3
                    (List.cons_ne_nil _ _))
            · exact ihs pre2 post h2
        · have hxid : inpId x ≠ id := by
            intro hxi
            have := hval [] x t rfl hxi hx
            exact absurd this (List.not_mem_nil _)
          have hval2 : ∀ t1 e t2, t = t1 ++ e :: t2 → inpId e = id →
              e ≠ SockIn.conn id → SockIn.conn id ∈ t1 := by
            intro t1 e t2 h1 h2 h3
            have := hval (x :: t1) e t2 (by rw [h1]; rfl) h2 h3
            rcases List.mem_cons.mp this with h4 | h4
            · exact absurd h4.symm hx
            · exact h4
          rw [countP_head_ne hx] at hcount
          obtain ⟨hnoA, houtA⟩ := stepA ws id x hws hx
          have hevid := step_evId ws x
          obtain ⟨ihc, ihp, ihs⟩ := ih _ houtA hcount hval2
          rw [sock_run_cons]
          refine ⟨?_, ?_, ?_⟩
          · rw [List.countP_append, countNS_eq_zero hnoA, ihc, countP_head_ne hx]
            simp
          · intro pre e post h heid hene
            rcases split_cases _ _ _ _ _ h with ⟨post2, h1, _⟩ | ⟨pre2, h1, h2⟩
            · have hmem : e ∈ (sock_step ws x).2 := by
                rw [h1]
                exact List.mem_append_right _ (List.mem_cons_self _ _)
              exact absurd ((hevid e hmem).symm.trans heid) hxid
            · rw [h1]
              exact List.mem_append_right _ (ihp pre2 e post h2 heid hene)
          · intro pre post h
            rcases split_cases _ _ _ _ _ h with ⟨post2, h1, _⟩ | ⟨pre2, _, h2⟩
            · have hmem : SockEv.ClosedSocket id ∈ (sock_step ws x).2 := by
                rw [h1]
                exact List.mem_append_right _ (List.mem_cons_self _ _)
              exact absurd rfl ((hnoA _ hmem).2)
            · exact ihs pre2 post h2
  exact main t [] (List.not_mem_nil _) hcount hval

theorem claim_C7_witness :
    (wGoodTrace.countP (fun e => e == SockIn.conn 0) ≤ 1) ∧
    ((sock_run [] wGoodTrace).2.countP (fun e => e == SockEv.NewSocket 0) =
      wGoodTrace.countP (fun e => e == SockIn.conn 0)) ∧
    (∀ pre e post, (sock_run [] wGoodTrace).2 = pre ++ e :: post → evId e = 0 →
      e ≠ SockEv.NewSocket 0 → SockEv.NewSocket 0 ∈ pre) ∧
    (∀ pre post, (sock_run [] wGoodTrace).2 = pre ++ SockEv.ClosedSocket 0 :: post →
      noNSCS 0 post) := by
  have hval : ∀ t1 e t2, wGoodTrace = t1 ++ e :: t2 → inpId e = 0 →
      e ≠ SockIn.conn 0 → SockIn.conn 0 ∈ t1 := by
    intro t1 e t2 heq _ hne
    cases t1 with
    | nil =>
        rw [wGoodTrace] at heq
        obtain ⟨h1, _⟩ := List.cons.injEq .. ▸ heq
        exact absurd h1.symm hne
    | cons a t1 =>
        rw [wGoodTrace] at heq
        simp only [List.cons_append] at heq
        obtain ⟨h1, _⟩ := List.cons.injEq .. ▸ heq
        rw [← h1]
        exact List.mem_cons_self _ _
  obtain ⟨h1, h2, h3⟩ := claim_C7 wGoodTrace 0 (by decide) hval
  exact ⟨by decide, h1, h2, h3⟩

end Socket

namespace Reader

/-- C8 fails on the code: the byte stream `"abc\n"` delivered in a single
read yields the line `"abc"`, but the same stream split across two reads
(`"ab"` then `"c\n"`) yields only `"c"` — the bytes read before the
buffer boundary are discarded, not buffered and prepended as claimed
(97 = a, 98 = b, 99 = c, 10 = the line feed). -/
theorem claim_C8 :
    read_forever [[97, 98, 99, 10]] = [RdRes.ok [97, 98, 99]] ∧
    read_forever [[97, 98], [99, 10]] = [RdRes.ok [99]] := by
  decide

end Reader

end Mafia
